import Mathlib

/-!
# Verification of PCDLoader.js (PCD point-cloud decoder)

Shallow embedding of the decoder in `src/PCDLoader.js` and proofs of the
specification claims.  Byte buffers are `List Nat` (each entry a byte value),
text is `List Char`.  JavaScript numbers that may be `NaN` are embedded as
`Option Int` (`JSInt`) or `Option ℚ` (`JSNum`), with `none` standing for
`NaN` (and for the missing/`undefined` token when reading absent columns);
propagation rules follow JavaScript arithmetic.  Fallible operations
(thrown `Error` / `TypeError` / `RangeError`) are embedded as
`Except String`.
-/

/- Rational arithmetic must evaluate inside `decide` proofs below; restore
definitional transparency to the four Batteries rational operations. -/
set_option allowUnsafeReducibility true in
attribute [semireducible] Rat.add Rat.mul Rat.inv Rat.sub Rat.ofScientific

/-- JavaScript number restricted to integer values; `none` is `NaN`. -/
abbrev JSInt := Option Int

/-- JavaScript number with rational value; `none` is `NaN` (or a non-finite
float).  Exact rationals stand in for IEEE doubles; this is exact for every
numeral appearing in the claims below. -/
abbrev JSNum := Option ℚ

/-- JS `+` on possibly-NaN integers (NaN propagates). -/
def jadd (a b : JSInt) : JSInt :=
  match a, b with
  | some x, some y => some (x + y)
  | _, _ => none

/-- JS `*` on possibly-NaN integers (NaN propagates). -/
def jmul (a b : JSInt) : JSInt :=
  match a, b with
  | some x, some y => some (x * y)
  | _, _ => none

/-- An `undefined` JS value (absent object property / out-of-range array
element) behaves as `NaN` once it enters arithmetic. -/
def undef2nan (o : Option JSInt) : JSInt := o.getD none

/-! ## LZF decompressor (`decompressLZF`, PCDLoader.js lines 64-118)

The output buffer is a pre-allocated zero-filled `Array Nat` of length
`outLength` (JS `new Uint8Array(outLength)`); `inPtr`/`outPtr` are the two
cursors.  The JS loop is a `do … while (inPtr < inLength)`, so the body runs
at least once even on empty input; on empty input the control-byte read
yields `undefined`, `undefined < 32` is false, and the branch for
back-references immediately hits the `inPtr >= inLength` check and throws
`'Invalid compressed data'`.  We model the out-of-range control-byte read by
the `none` case of `List.get?`. -/

/-- Literal-run copy: `do { outData[outPtr++] = inData[inPtr++]; } while (--ctrl)` —
copies `n` bytes from the input to the output, one byte at a time. -/
def litCopy (inData : List Nat) (inPtr : Nat) (out : Array Nat) (outPtr : Nat) :
    Nat → Array Nat
  | 0 => out
  | n + 1 => litCopy inData (inPtr + 1) (out.setD outPtr (inData.getD inPtr 0)) (outPtr + 1) n

/-- Back-reference copy: `do { outData[outPtr++] = outData[ref++]; } while (--len + 2)` —
copies `n` bytes inside the output buffer, one byte at a time, so an
overlapping source re-reads bytes written by earlier steps of the same copy. -/
def refCopy (out : Array Nat) (ref outPtr : Nat) : Nat → Array Nat
  | 0 => out
  | n + 1 => refCopy (out.setD outPtr (out.getD ref 0)) (ref + 1) (outPtr + 1) n

/-- `len = ctrl >> 5`, with one extra input byte added when `len == 7`
(the extended-length escape). -/
def lzfLen (inData : List Nat) (inPtr ctrl : Nat) : Nat :=
  if ctrl / 32 = 7 then 7 + inData.getD (inPtr + 1) 0 else ctrl / 32

/-- Index of the back-reference distance byte: the byte after the control
byte, or one further when the extended-length escape consumed a byte. -/
def lzfIp (inPtr ctrl : Nat) : Nat :=
  if ctrl / 32 = 7 then inPtr + 2 else inPtr + 1

/-- One pass of the `do … while` decompression loop, fuel-indexed for
structural recursion.  Every iteration advances `inPtr` by at least one, so
`inData.length + 1` fuel always suffices (see `decompressLZF`).
`ctrl >> 5` is written `ctrl / 32` and `ctrl & 0x1f` is `ctrl % 32`. -/
def lzfRun (inData : List Nat) (outLength : Nat) :
    Nat → Nat → Nat → Array Nat → Except String (Array Nat)
  | 0, _, _, _ => Except.error "Invalid compressed data"
  | fuel + 1, inPtr, outPtr, out =>
    match inData.get? inPtr with
    | none => Except.error "Invalid compressed data"
    | some ctrl =>
      if ctrl < 32 then
        -- literal run of ctrl+1 bytes
        let n := ctrl + 1
        if outPtr + n > outLength then Except.error "Output buffer is not large enough"
        else if inPtr + 1 + n > inData.length then Except.error "Invalid compressed data"
        else
          let out2 := litCopy inData (inPtr + 1) out outPtr n
          if inPtr + 1 + n < inData.length then
            lzfRun inData outLength fuel (inPtr + 1 + n) (outPtr + n) out2
          else Except.ok out2
      else
        -- back-reference: len = ctrl >> 5, ref = outPtr - ((ctrl & 0x1f) << 8) - 1 - dist
        if inData.length ≤ inPtr + 1 then Except.error "Invalid compressed data"
        else
          let len := lzfLen inData inPtr ctrl
          let ip := lzfIp inPtr ctrl  -- index of the distance byte
          if inData.length ≤ ip then Except.error "Invalid compressed data"
          else
            let ref : Int := (outPtr : Int) - (ctrl % 32) * 256 - 1 - inData.getD ip 0
            if outPtr + len + 2 > outLength then Except.error "Output buffer is not large enough"
            else if ref < 0 then Except.error "Invalid compressed data"
            else if (outPtr : Int) ≤ ref then Except.error "Invalid compressed data"
            else
              let out2 := refCopy out ref.toNat outPtr (len + 2)
              if ip + 1 < inData.length then
                lzfRun inData outLength fuel (ip + 1) (outPtr + (len + 2)) out2
              else Except.ok out2

/-- `decompressLZF(inData, outLength)`: run the loop from both cursors at 0 on
a zero-filled output buffer.  On success the JS function returns the whole
`outData` buffer (always of length `outLength`), which we return as a list. -/
def decompressLZF (inData : List Nat) (outLength : Nat) : Except String (List Nat) :=
  (lzfRun inData outLength (inData.length + 1) 0 0 (Array.mkArray outLength 0)).map
    Array.toList

/-! ### Basic LZF lemmas -/

theorem litCopy_size (inData : List Nat) :
    ∀ (n : Nat) (inPtr : Nat) (out : Array Nat) (outPtr : Nat),
      (litCopy inData inPtr out outPtr n).size = out.size := by
  intro n
  induction n with
  | zero => intro inPtr out outPtr; rfl
  | succ n ih =>
    intro inPtr out outPtr
    simp [litCopy, ih, Array.size_setD]

theorem refCopy_size :
    ∀ (n : Nat) (out : Array Nat) (ref outPtr : Nat),
      (refCopy out ref outPtr n).size = out.size := by
  intro n
  induction n with
  | zero => intro out ref outPtr; rfl
  | succ n ih =>
    intro out ref outPtr
    simp [refCopy, ih, Array.size_setD]

theorem arrGetD_setD_ne (a : Array Nat) (i j v : Nat) (hij : i ≠ j) :
    (a.setD i v).getD j 0 = a.getD j 0 := by
  unfold Array.setD
  by_cases h : i < a.size
  · simp only [h, dite_true]
    unfold Array.getD
    by_cases hj : j < a.size
    · simp only [Array.size_set, hj, dite_true]
      exact Array.getElem_set_ne a ⟨i, h⟩ v (by simpa [Array.size_set] using hj)
        (by simpa using hij)
    · simp only [Array.size_set, hj, dite_false]
  · simp only [h, dite_false]

theorem arrGetD_setD_eq (a : Array Nat) (i v : Nat) (hi : i < a.size) :
    (a.setD i v).getD i 0 = v := by
  simp [Array.getD_eq_get?, Array.getElem?_setD_eq _ hi]

theorem litCopy_getD_lt (inData : List Nat) :
    ∀ (n : Nat) (inPtr : Nat) (out : Array Nat) (outPtr j : Nat), j < outPtr →
      (litCopy inData inPtr out outPtr n).getD j 0 = out.getD j 0 := by
  intro n
  induction n with
  | zero => intro inPtr out outPtr j _; rfl
  | succ n ih =>
    intro inPtr out outPtr j hj
    have h1 : (litCopy inData (inPtr + 1) (out.setD outPtr (inData.getD inPtr 0)) (outPtr + 1) n).getD j 0
        = (out.setD outPtr (inData.getD inPtr 0)).getD j 0 := ih _ _ _ j (by omega)
    have h2 : (out.setD outPtr (inData.getD inPtr 0)).getD j 0 = out.getD j 0 :=
      arrGetD_setD_ne _ _ _ _ (by omega)
    rw [litCopy]
    exact h1.trans h2

theorem refCopy_getD_lt :
    ∀ (n : Nat) (out : Array Nat) (ref outPtr j : Nat), j < outPtr →
      (refCopy out ref outPtr n).getD j 0 = out.getD j 0 := by
  intro n
  induction n with
  | zero => intro out ref outPtr j _; rfl
  | succ n ih =>
    intro out ref outPtr j hj
    have h1 : (refCopy (out.setD outPtr (out.getD ref 0)) (ref + 1) (outPtr + 1) n).getD j 0
        = (out.setD outPtr (out.getD ref 0)).getD j 0 := ih _ _ _ j (by omega)
    have h2 : (out.setD outPtr (out.getD ref 0)).getD j 0 = out.getD j 0 :=
      arrGetD_setD_ne _ _ _ _ (by omega)
    rw [refCopy]
    exact h1.trans h2

theorem drop_get? (input : List Nat) (inPtr t : Nat) (l : List Nat)
    (h : input.drop inPtr = l) : input.get? (inPtr + t) = l.get? t := by
  rw [List.get?_eq_getElem?, List.get?_eq_getElem?, ← List.getElem?_drop, h]

theorem drop_getD (input : List Nat) (inPtr t : Nat) (l : List Nat)
    (h : input.drop inPtr = l) : input.getD (inPtr + t) 0 = l.getD t 0 := by
  rw [List.getD_eq_getElem?_getD, List.getD_eq_getElem?_getD, ← List.getElem?_drop, h]

theorem litCopy_getD_in (inData : List Nat) :
    ∀ (n : Nat) (inPtr : Nat) (out : Array Nat) (outPtr : Nat), outPtr + n ≤ out.size →
      ∀ t, t < n →
        (litCopy inData inPtr out outPtr n).getD (outPtr + t) 0 = inData.getD (inPtr + t) 0 := by
  intro n
  induction n with
  | zero => intro _ _ _ _ t ht; omega
  | succ n ih =>
    intro inPtr out outPtr hsz t ht
    rw [litCopy]
    rcases Nat.eq_zero_or_pos t with rfl | hpos
    · have hlt : (litCopy inData (inPtr + 1) (out.setD outPtr (inData.getD inPtr 0)) (outPtr + 1) n).getD (outPtr + 0) 0
          = (out.setD outPtr (inData.getD inPtr 0)).getD (outPtr + 0) 0 :=
        litCopy_getD_lt _ _ _ _ _ _ (by omega)
      rw [hlt]
      simpa using arrGetD_setD_eq out outPtr _ (by omega)
    · obtain ⟨s, rfl⟩ : ∃ s, t = s + 1 := ⟨t - 1, by omega⟩
      have h := ih (inPtr + 1) (out.setD outPtr (inData.getD inPtr 0)) (outPtr + 1)
        (by simp only [Array.size_setD]; omega) s (by omega)
      have e1 : outPtr + 1 + s = outPtr + (s + 1) := by omega
      have e2 : inPtr + 1 + s = inPtr + (s + 1) := by omega
      rw [e1, e2] at h
      exact h

/-- The byte-at-a-time back-reference copy reproduces a periodic pattern:
the byte written at `outPtr + i` equals the original buffer's byte at
`ref + (i % (outPtr - ref))`. -/
theorem refCopy_getD_periodic :
    ∀ (n : Nat) (out : Array Nat) (ref outPtr : Nat),
      ref < outPtr → outPtr + n ≤ out.size →
      ∀ i, i < n →
        (refCopy out ref outPtr n).getD (outPtr + i) 0
          = out.getD (ref + i % (outPtr - ref)) 0 := by
  intro n
  induction n with
  | zero => intro _ _ _ _ _ i hi; omega
  | succ n ih =>
    intro out ref outPtr href hsz i hi
    rw [refCopy]
    rcases Nat.eq_zero_or_pos i with rfl | hpos
    · have hlt : (refCopy (out.setD outPtr (out.getD ref 0)) (ref + 1) (outPtr + 1) n).getD (outPtr + 0) 0
          = (out.setD outPtr (out.getD ref 0)).getD (outPtr + 0) 0 :=
        refCopy_getD_lt _ _ _ _ _ (by omega)
      rw [hlt]
      have := arrGetD_setD_eq out outPtr (out.getD ref 0) (by omega)
      simpa [Nat.zero_mod] using this
    · obtain ⟨k, rfl⟩ : ∃ k, i = k + 1 := ⟨i - 1, by omega⟩
      have h2 := ih (out.setD outPtr (out.getD ref 0)) (ref + 1) (outPtr + 1)
        (by omega) (by simp only [Array.size_setD]; omega) k (by omega)
      have e1 : outPtr + 1 + k = outPtr + (k + 1) := by omega
      have ed : outPtr + 1 - (ref + 1) = outPtr - ref := by omega
      rw [e1, ed] at h2
      rw [h2]
      -- relate (ref+1) + k % d in the updated buffer to ref + (k+1) % d in the original
      set d := outPtr - ref with hdd
      have hd1 : 1 ≤ d := by omega
      set m := k % d with hm
      have hmlt : m < d := Nat.mod_lt _ (by omega)
      have hkm : Nat.ModEq d k m := by
        show k % d = m % d
        rw [Nat.mod_eq_of_lt hmlt]
      have hmod : (k + 1) % d = (m + 1) % d := Nat.ModEq.add_right 1 hkm
      by_cases hcase : m + 1 < d
      · have h3 : (k + 1) % d = m + 1 := by rw [hmod, Nat.mod_eq_of_lt hcase]
        rw [h3]
        have hne : outPtr ≠ ref + 1 + m := by omega
        have := arrGetD_setD_ne out outPtr (ref + 1 + m) (out.getD ref 0) hne
        rw [this]
        congr 1
        omega
      · have hmeq : m + 1 = d := by omega
        have h3 : (k + 1) % d = 0 := by rw [hmod, hmeq, Nat.mod_self]
        rw [h3]
        have hidx : ref + 1 + m = outPtr := by omega
        rw [hidx]
        have := arrGetD_setD_eq out outPtr (out.getD ref 0) (by omega)
        rw [this, Nat.add_zero]

/-! ## A matching LZF compressor

The LZF stream format decoded by `decompressLZF` consists of a sequence of
operations: literal runs of 1..32 bytes (control byte `< 32`) and
back-references of 3..264 bytes at distance 1..8192 (control byte `≥ 32`,
with the `len = 7` extended-length escape).  `encodeOps` serialises such a
sequence exactly as a matching LZF compressor would; `opsOutput` is the byte
sequence the stream stands for, with back-references resolved one byte at a
time against the bytes already produced. -/

inductive LZFOp where
  | lit : List Nat → LZFOp
  | ref : Nat → Nat → LZFOp  -- `ref d L`: copy `L` bytes starting `d` bytes back

/-- Number of output bytes an operation produces. -/
def opLen : LZFOp → Nat
  | .lit bs => bs.length
  | .ref _ L => L

/-- Well-formedness of an operation when the output cursor is at `pos`. -/
def opOk (pos : Nat) : LZFOp → Prop
  | .lit bs => bs ≠ [] ∧ bs.length ≤ 32 ∧ ∀ b ∈ bs, b < 256
  | .ref d L => 1 ≤ d ∧ d ≤ 8192 ∧ d ≤ pos ∧ 3 ≤ L ∧ L ≤ 264

/-- Well-formedness of a whole operation sequence starting at output
position `pos`. -/
def opsOk : Nat → List LZFOp → Prop
  | _, [] => True
  | pos, op :: ops => opOk pos op ∧ opsOk (pos + opLen op) ops

/-- Serialise one operation into stream bytes, exactly as the LZF wire
format read back by `decompressLZF`: a literal run of `n` bytes is
`n-1` followed by the bytes; a reference of `L` bytes at distance `d` is
`(L-2) << 5 | (d-1 >> 8)` and `(d-1) & 0xff` when `L ≤ 8`, and
`7 << 5 | (d-1 >> 8)`, `L-9`, `(d-1) & 0xff` when `L ≥ 9`. -/
def encodeOp : LZFOp → List Nat
  | .lit bs => (bs.length - 1) :: bs
  | .ref d L =>
    let hi := (d - 1) / 256
    let lo := (d - 1) % 256
    if L ≤ 8 then [32 * (L - 2) + hi, lo] else [224 + hi, L - 9, lo]

def encodeOps : List LZFOp → List Nat
  | [] => []
  | op :: ops => encodeOp op ++ encodeOps ops

/-- Byte-at-a-time back-reference resolution on lists (the list analogue of
`refCopy`): append `n` bytes read from position `ref` of the growing list. -/
def refAppend (acc : List Nat) (ref : Nat) : Nat → List Nat
  | 0 => acc
  | n + 1 => refAppend (acc ++ [acc.getD ref 0]) (ref + 1) n

/-- The bytes an operation appends to the output produced so far. -/
def opOutput (acc : List Nat) : LZFOp → List Nat
  | .lit bs => acc ++ bs
  | .ref d L => refAppend acc (acc.length - d) L

/-- The byte sequence an operation list stands for, given already-produced
output `acc`. -/
def opsOutput : List Nat → List LZFOp → List Nat
  | acc, [] => acc
  | acc, op :: ops => opsOutput (opOutput acc op) ops

def opsLen (ops : List LZFOp) : Nat := (ops.map opLen).sum

theorem refAppend_length : ∀ (n : Nat) (acc : List Nat) (ref : Nat),
    (refAppend acc ref n).length = acc.length + n := by
  intro n
  induction n with
  | zero => intro acc ref; rfl
  | succ n ih =>
    intro acc ref
    rw [refAppend, ih]
    simp
    omega

theorem opOutput_length (acc : List Nat) (op : LZFOp) :
    (opOutput acc op).length = acc.length + opLen op := by
  cases op with
  | lit bs => simp [opOutput, opLen]
  | ref d L => simp [opOutput, opLen, refAppend_length]

theorem opsOutput_length : ∀ (ops : List LZFOp) (acc : List Nat),
    (opsOutput acc ops).length = acc.length + opsLen ops := by
  intro ops
  induction ops with
  | nil => intro acc; simp [opsOutput, opsLen]
  | cons op ops ih =>
    intro acc
    rw [opsOutput, ih, opOutput_length]
    simp [opsLen]
    omega

theorem encodeOp_ne_nil (op : LZFOp) : encodeOp op ≠ [] := by
  cases op with
  | lit bs => simp [encodeOp]
  | ref d L =>
    simp only [encodeOp]
    split <;> simp

theorem encodeOps_eq_nil_iff (ops : List LZFOp) : encodeOps ops = [] ↔ ops = [] := by
  cases ops with
  | nil => simp [encodeOps]
  | cons op ops =>
    simp only [encodeOps]
    constructor
    · intro h
      exact absurd (List.append_eq_nil.mp h).1 (encodeOp_ne_nil op)
    · intro h
      exact absurd h (by simp)

theorem length_le_encodeOps_length : ∀ ops : List LZFOp,
    ops.length ≤ (encodeOps ops).length := by
  intro ops
  induction ops with
  | nil => simp [encodeOps]
  | cons op ops ih =>
    rw [encodeOps]
    have h1 : 1 ≤ (encodeOp op).length := by
      rcases List.length_pos.mpr (encodeOp_ne_nil op) with h
      omega
    simp only [List.length_append, List.length_cons]
    omega

theorem list_getD_append_lt (l : List Nat) (v : Nat) (j : Nat) (h : j < l.length) :
    (l ++ [v]).getD j 0 = l.getD j 0 := by
  rw [List.getD_eq_getElem?_getD, List.getD_eq_getElem?_getD, List.getElem?_append_left h]

theorem list_getD_append_self (l : List Nat) (v : Nat) :
    (l ++ [v]).getD l.length 0 = v := by
  rw [List.getD_eq_getElem?_getD, List.getElem?_append_right (Nat.le_refl _)]
  simp

/-- Correspondence between the array-based overlapping copy of the
decompressor and the list-based overlapping append of the stream semantics. -/
theorem refCopy_refAppend :
    ∀ (n : Nat) (acc : List Nat) (out : Array Nat) (ref : Nat),
      ref < acc.length →
      acc.length + n ≤ out.size →
      (∀ j, j < acc.length → out.getD j 0 = acc.getD j 0) →
      ∀ j, j < acc.length + n →
        (refCopy out ref acc.length n).getD j 0 = (refAppend acc ref n).getD j 0 := by
  intro n
  induction n with
  | zero =>
    intro acc out ref _ _ hinv j hj
    rw [refCopy, refAppend]
    exact hinv j (by omega)
  | succ n ih =>
    intro acc out ref href hsz hinv j hj
    rw [refCopy, refAppend]
    have hvals : out.getD ref 0 = acc.getD ref 0 := hinv ref href
    have hlen' : (acc ++ [acc.getD ref 0]).length = acc.length + 1 := by simp
    have hinv' : ∀ j, j < (acc ++ [acc.getD ref 0]).length →
        (out.setD acc.length (out.getD ref 0)).getD j 0 = (acc ++ [acc.getD ref 0]).getD j 0 := by
      intro j hj'
      rw [hlen'] at hj'
      by_cases hcase : j < acc.length
      · rw [arrGetD_setD_ne _ _ _ _ (by omega), hinv j hcase, list_getD_append_lt _ _ _ hcase]
      · have hje : j = acc.length := by omega
        subst hje
        rw [arrGetD_setD_eq _ _ _ (by omega), hvals, list_getD_append_self]
    have := ih (acc ++ [acc.getD ref 0]) (out.setD acc.length (out.getD ref 0)) (ref + 1)
      (by rw [hlen']; omega) (by simp only [Array.size_setD]; rw [hlen']; omega) hinv' j
      (by rw [hlen']; omega)
    rw [hlen'] at this
    exact this

/-! ### Step lemmas for `lzfRun` -/

/-- Successful literal-run step. -/
theorem lzfRun_lit_step (input : List Nat) (outLength fuel inPtr outPtr : Nat)
    (out : Array Nat) (c : Nat)
    (hget : input.get? inPtr = some c) (hc : c < 32)
    (hout : outPtr + (c + 1) ≤ outLength)
    (hin : inPtr + 1 + (c + 1) ≤ input.length) :
    lzfRun input outLength (fuel + 1) inPtr outPtr out =
      (if inPtr + 1 + (c + 1) < input.length then
        lzfRun input outLength fuel (inPtr + 1 + (c + 1)) (outPtr + (c + 1))
          (litCopy input (inPtr + 1) out outPtr (c + 1))
      else Except.ok (litCopy input (inPtr + 1) out outPtr (c + 1))) := by
  rw [lzfRun, hget]
  simp only [if_pos hc, if_neg (by omega : ¬ (outPtr + (c + 1) > outLength)),
    if_neg (by omega : ¬ (inPtr + 1 + (c + 1) > input.length))]

/-- Successful back-reference step, short length (`ctrl >> 5 ≠ 7`). -/
theorem lzfRun_ref_step (input : List Nat) (outLength fuel inPtr outPtr : Nat)
    (out : Array Nat) (c : Nat)
    (hget : input.get? inPtr = some c) (hc : ¬ c < 32) (h7 : c / 32 ≠ 7)
    (hin1 : inPtr + 1 < input.length)
    (hout : outPtr + (c / 32) + 2 ≤ outLength)
    (href0 : 0 ≤ (outPtr : Int) - (c % 32) * 256 - 1 - input.getD (inPtr + 1) 0)
    (href1 : (outPtr : Int) - (c % 32) * 256 - 1 - input.getD (inPtr + 1) 0 < outPtr) :
    lzfRun input outLength (fuel + 1) inPtr outPtr out =
      (if inPtr + 2 < input.length then
        lzfRun input outLength fuel (inPtr + 2) (outPtr + (c / 32 + 2))
          (refCopy out ((outPtr : Int) - (c % 32) * 256 - 1 - input.getD (inPtr + 1) 0).toNat
            outPtr (c / 32 + 2))
      else Except.ok
        (refCopy out ((outPtr : Int) - (c % 32) * 256 - 1 - input.getD (inPtr + 1) 0).toNat
          outPtr (c / 32 + 2))) := by
  rw [lzfRun, hget]
  simp only [lzfLen, lzfIp, if_neg h7]
  simp only [if_neg hc, if_neg (by omega : ¬ input.length ≤ inPtr + 1),
    if_neg (by omega : ¬ (outPtr + (c / 32) + 2 > outLength)),
    if_neg (by omega : ¬ ((outPtr : Int) - (c % 32) * 256 - 1 - input.getD (inPtr + 1) 0 < 0)),
    if_neg (by omega : ¬ ((outPtr : Int) ≤ (outPtr : Int) - (c % 32) * 256 - 1 - input.getD (inPtr + 1) 0))]

/-- Successful back-reference step, extended length (`ctrl >> 5 = 7`). -/
theorem lzfRun_ref7_step (input : List Nat) (outLength fuel inPtr outPtr : Nat)
    (out : Array Nat) (c : Nat)
    (hget : input.get? inPtr = some c) (hc : ¬ c < 32) (h7 : c / 32 = 7)
    (hin1 : inPtr + 1 < input.length) (hin2 : inPtr + 2 < input.length)
    (hout : outPtr + (7 + input.getD (inPtr + 1) 0) + 2 ≤ outLength)
    (href0 : 0 ≤ (outPtr : Int) - (c % 32) * 256 - 1 - input.getD (inPtr + 2) 0)
    (href1 : (outPtr : Int) - (c % 32) * 256 - 1 - input.getD (inPtr + 2) 0 < outPtr) :
    lzfRun input outLength (fuel + 1) inPtr outPtr out =
      (if inPtr + 3 < input.length then
        lzfRun input outLength fuel (inPtr + 3) (outPtr + (7 + input.getD (inPtr + 1) 0 + 2))
          (refCopy out ((outPtr : Int) - (c % 32) * 256 - 1 - input.getD (inPtr + 2) 0).toNat
            outPtr (7 + input.getD (inPtr + 1) 0 + 2))
      else Except.ok
        (refCopy out ((outPtr : Int) - (c % 32) * 256 - 1 - input.getD (inPtr + 2) 0).toNat
          outPtr (7 + input.getD (inPtr + 1) 0 + 2))) := by
  rw [lzfRun, hget]
  simp only [lzfLen, lzfIp, if_pos h7]
  simp only [if_neg hc, if_neg (by omega : ¬ input.length ≤ inPtr + 1),
    if_neg (by omega : ¬ input.length ≤ inPtr + 2),
    if_neg (by omega : ¬ (outPtr + (7 + input.getD (inPtr + 1) 0) + 2 > outLength)),
    if_neg (by omega : ¬ ((outPtr : Int) - (c % 32) * 256 - 1 - input.getD (inPtr + 2) 0 < 0)),
    if_neg (by omega : ¬ ((outPtr : Int) ≤ (outPtr : Int) - (c % 32) * 256 - 1 - input.getD (inPtr + 2) 0))]

theorem list_getD_append_left (l r : List Nat) (j : Nat) (h : j < l.length) :
    (l ++ r).getD j 0 = l.getD j 0 := by
  rw [List.getD_eq_getElem?_getD, List.getD_eq_getElem?_getD, List.getElem?_append_left h]

theorem list_getD_append_right (l r : List Nat) (t : Nat) :
    (l ++ r).getD (l.length + t) 0 = r.getD t 0 := by
  rw [List.getD_eq_getElem?_getD, List.getD_eq_getElem?_getD,
    List.getElem?_append_right (by omega : l.length ≤ l.length + t)]
  congr 2
  omega

/-- Decoding one well-formed serialised operation: the decompressor consumes
exactly `(encodeOp op).length` input bytes, advances the output cursor by
`opLen op`, and writes the bytes `opOutput` prescribes. -/
theorem lzfRun_op_step (op : LZFOp) (tail : List Nat) (fuel : Nat) (input : List Nat)
    (inPtr : Nat) (acc : List Nat) (out : Array Nat) (outLength : Nat)
    (hop : opOk acc.length op)
    (hdrop : input.drop inPtr = encodeOp op ++ tail)
    (hlength : inPtr + (encodeOp op).length + tail.length = input.length)
    (houtLen : acc.length + opLen op ≤ outLength)
    (hsize : out.size = outLength)
    (hinv : ∀ j, j < acc.length → out.getD j 0 = acc.getD j 0) :
    ∃ out2 : Array Nat,
      out2.size = outLength ∧
      (∀ j, j < acc.length + opLen op → out2.getD j 0 = (opOutput acc op).getD j 0) ∧
      lzfRun input outLength (fuel + 1) inPtr acc.length out =
        (if inPtr + (encodeOp op).length < input.length then
          lzfRun input outLength fuel (inPtr + (encodeOp op).length) (acc.length + opLen op) out2
        else Except.ok out2) := by
  cases op with
  | lit bs =>
    obtain ⟨hne, h32, _⟩ := hop
    have hbs1 : 1 ≤ bs.length := List.length_pos.mpr hne
    have hdrop' : input.drop inPtr = (bs.length - 1) :: (bs ++ tail) := by
      rw [hdrop]; rfl
    have hget : input.get? inPtr = some (bs.length - 1) := by
      have h := drop_get? input inPtr 0 _ hdrop'
      simpa using h
    have hdrop1 : input.drop (inPtr + 1) = bs ++ tail := by
      rw [← List.drop_drop 1 inPtr input, hdrop']
      rfl
    have helen : (encodeOp (LZFOp.lit bs)).length = 1 + bs.length := by
      simp [encodeOp]; omega
    have hoplen : opLen (LZFOp.lit bs) = bs.length := rfl
    rw [hoplen] at houtLen
    have hstep := lzfRun_lit_step input outLength fuel inPtr acc.length out (bs.length - 1)
      hget (by omega) (by omega) (by rw [helen] at hlength; omega)
    have hc1 : bs.length - 1 + 1 = bs.length := by omega
    rw [hc1] at hstep
    refine ⟨litCopy input (inPtr + 1) out acc.length bs.length, ?_, ?_, ?_⟩
    · rw [litCopy_size, hsize]
    · intro j hj
      rw [hoplen] at hj
      show _ = (acc ++ bs).getD j 0
      by_cases hcase : j < acc.length
      · rw [litCopy_getD_lt _ _ _ _ _ _ hcase, hinv j hcase,
          list_getD_append_left _ _ _ hcase]
      · obtain ⟨t, rfl⟩ : ∃ t, j = acc.length + t := ⟨j - acc.length, by omega⟩
        rw [litCopy_getD_in _ _ _ _ _ (by omega) t (by omega),
          drop_getD input (inPtr + 1) t _ hdrop1,
          list_getD_append_left _ _ _ (by omega : t < bs.length),
          list_getD_append_right]
    · rw [hstep, hoplen, helen]
      have harith : inPtr + 1 + bs.length = inPtr + (1 + bs.length) := by omega
      rw [harith]
  | ref d L =>
    obtain ⟨hd1, hd8192, hdpos, hL3, hL264⟩ := hop
    have hhi : (d - 1) / 256 ≤ 31 := by omega
    have hlo : (d - 1) % 256 ≤ 255 := by omega
    have hdm : (d - 1) / 256 * 256 + (d - 1) % 256 = d - 1 := by omega
    by_cases hL8 : L ≤ 8
    · -- short reference: two bytes [32*(L-2)+hi, lo]
      have hENC : encodeOp (LZFOp.ref d L) = [32 * (L - 2) + (d - 1) / 256, (d - 1) % 256] := by
        simp [encodeOp, hL8]
      have hdrop' : input.drop inPtr
          = (32 * (L - 2) + (d - 1) / 256) :: ((d - 1) % 256 :: tail) := by
        rw [hdrop, hENC]; rfl
      have hget : input.get? inPtr = some (32 * (L - 2) + (d - 1) / 256) := by
        simpa using drop_get? input inPtr 0 _ hdrop'
      have hgd1 : input.getD (inPtr + 1) 0 = (d - 1) % 256 := by
        simpa using drop_getD input inPtr 1 _ hdrop'
      have helen : (encodeOp (LZFOp.ref d L)).length = 2 := by rw [hENC]; rfl
      have hoplen : opLen (LZFOp.ref d L) = L := rfl
      rw [hoplen] at houtLen
      rw [helen] at hlength
      set c := 32 * (L - 2) + (d - 1) / 256 with hcdef
      have hcge : ¬ c < 32 := by omega
      have hcdiv : c / 32 = L - 2 := by omega
      have hrefEq : (acc.length : Int) - (c % 32) * 256 - 1 - input.getD (inPtr + 1) 0
          = ((acc.length - d : Nat) : Int) := by
        rw [hgd1]
        omega
      have hstep := lzfRun_ref_step input outLength fuel inPtr acc.length out c
        hget hcge (by omega) (by omega) (by omega)
        (by rw [hrefEq]; omega) (by rw [hrefEq]; omega)
      rw [hrefEq] at hstep
      have htoNat : ((acc.length - d : Nat) : Int).toNat = acc.length - d := Int.toNat_natCast _
      rw [htoNat] at hstep
      have hL2 : c / 32 + 2 = L := by omega
      rw [hL2] at hstep
      have hcontent := refCopy_refAppend L acc out (acc.length - d)
        (by omega) (by omega) hinv
      refine ⟨refCopy out (acc.length - d) acc.length L, ?_, ?_, ?_⟩
      · rw [refCopy_size, hsize]
      · intro j hj
        rw [hoplen] at hj
        show _ = (refAppend acc (acc.length - d) L).getD j 0
        exact hcontent j hj
      · rw [hstep, hoplen, helen]
    · -- extended reference: three bytes [224+hi, L-9, lo]
      have hENC : encodeOp (LZFOp.ref d L)
          = [224 + (d - 1) / 256, L - 9, (d - 1) % 256] := by
        simp [encodeOp, hL8]
      have hdrop' : input.drop inPtr
          = (224 + (d - 1) / 256) :: ((L - 9) :: ((d - 1) % 256 :: tail)) := by
        rw [hdrop, hENC]; rfl
      have hget : input.get? inPtr = some (224 + (d - 1) / 256) := by
        simpa using drop_get? input inPtr 0 _ hdrop'
      have hgd1 : input.getD (inPtr + 1) 0 = L - 9 := by
        simpa using drop_getD input inPtr 1 _ hdrop'
      have hgd2 : input.getD (inPtr + 2) 0 = (d - 1) % 256 := by
        simpa using drop_getD input inPtr 2 _ hdrop'
      have helen : (encodeOp (LZFOp.ref d L)).length = 3 := by rw [hENC]; rfl
      have hoplen : opLen (LZFOp.ref d L) = L := rfl
      rw [hoplen] at houtLen
      rw [helen] at hlength
      set c := 224 + (d - 1) / 256 with hcdef
      have hcge : ¬ c < 32 := by omega
      have hcdiv : c / 32 = 7 := by omega
      have hrefEq : (acc.length : Int) - (c % 32) * 256 - 1 - input.getD (inPtr + 2) 0
          = ((acc.length - d : Nat) : Int) := by
        rw [hgd2]
        omega
      have hlenEq : 7 + input.getD (inPtr + 1) 0 + 2 = L := by rw [hgd1]; omega
      have hstep := lzfRun_ref7_step input outLength fuel inPtr acc.length out c
        hget hcge hcdiv (by omega) (by omega)
        (by rw [hgd1]; omega)
        (by rw [hrefEq]; omega) (by rw [hrefEq]; omega)
      rw [hrefEq] at hstep
      have htoNat : ((acc.length - d : Nat) : Int).toNat = acc.length - d := Int.toNat_natCast _
      rw [htoNat, hlenEq] at hstep
      have hcontent := refCopy_refAppend L acc out (acc.length - d)
        (by omega) (by omega) hinv
      refine ⟨refCopy out (acc.length - d) acc.length L, ?_, ?_, ?_⟩
      · rw [refCopy_size, hsize]
      · intro j hj
        rw [hoplen] at hj
        show _ = (refAppend acc (acc.length - d) L).getD j 0
        exact hcontent j hj
      · rw [hstep, hoplen, helen]

theorem array_eq_list (a : Array Nat) (l : List Nat) (hs : a.size = l.length)
    (h : ∀ j, j < l.length → a.getD j 0 = l.getD j 0) : a.toList = l := by
  apply List.ext_getElem
  · simpa using hs
  · intro i h1 h2
    have hi : i < a.size := by simpa using h1
    have hgd := h i h2
    unfold Array.getD at hgd
    rw [dif_pos hi] at hgd
    rw [List.getD_eq_getElem?_getD, List.getElem?_eq_getElem h2] at hgd
    simpa [Array.getElem_toList] using hgd

/-- Running the decompressor over a whole well-formed serialised operation
sequence yields exactly the bytes the sequence stands for. -/
theorem lzfRun_encode :
    ∀ (ops : List LZFOp) (fuel : Nat) (input : List Nat) (inPtr : Nat)
      (acc : List Nat) (out : Array Nat) (outLength : Nat),
      ops ≠ [] →
      opsOk acc.length ops →
      input.drop inPtr = encodeOps ops →
      inPtr + (encodeOps ops).length = input.length →
      outLength = acc.length + opsLen ops →
      out.size = outLength →
      (∀ j, j < acc.length → out.getD j 0 = acc.getD j 0) →
      ops.length < fuel →
      ∃ outF : Array Nat,
        lzfRun input outLength fuel inPtr acc.length out = Except.ok outF ∧
        outF.size = outLength ∧
        ∀ j, j < outLength → outF.getD j 0 = (opsOutput acc ops).getD j 0 := by
  intro ops
  induction ops with
  | nil => intro _ _ _ _ _ _ hne; exact absurd rfl hne
  | cons op rest ih =>
    intro fuel input inPtr acc out outLength _ hok hdrop hlength houtLen hsize hinv hfuel
    obtain ⟨hop, hoks⟩ := hok
    cases fuel with
    | zero => omega
    | succ fuel =>
      have hdropstep : input.drop inPtr = encodeOp op ++ encodeOps rest := hdrop
      have hlenstep : inPtr + (encodeOp op).length + (encodeOps rest).length = input.length := by
        have hl : (encodeOps (op :: rest)).length
            = (encodeOp op).length + (encodeOps rest).length := by
          rw [encodeOps]; simp
        omega
      have hopsLenCons : opsLen (op :: rest) = opLen op + opsLen rest := by
        simp [opsLen]
      have hstep := lzfRun_op_step op (encodeOps rest) fuel input inPtr acc out outLength
        hop hdropstep hlenstep (by omega) hsize hinv
      obtain ⟨out2, hsz2, hinv2, heq⟩ := hstep
      by_cases hrest : rest = []
      · subst hrest
        have hcond : ¬ inPtr + (encodeOp op).length < input.length := by
          simp only [encodeOps, List.length_nil] at hlenstep
          omega
        rw [heq, if_neg hcond]
        refine ⟨out2, rfl, hsz2, ?_⟩
        intro j hj
        show out2.getD j 0 = (opOutput acc op).getD j 0
        apply hinv2
        rw [houtLen, hopsLenCons] at hj
        simpa [opsLen] using hj
      · have hpos : 0 < (encodeOps rest).length :=
          List.length_pos.mpr (fun h => hrest ((encodeOps_eq_nil_iff rest).mp h))
        have hcond : inPtr + (encodeOp op).length < input.length := by omega
        rw [heq, if_pos hcond]
        have hacc' : (opOutput acc op).length = acc.length + opLen op := opOutput_length acc op
        have hdropnext : input.drop (inPtr + (encodeOp op).length) = encodeOps rest := by
          rw [← List.drop_drop (encodeOp op).length inPtr input, hdropstep, List.drop_left]
        have hmain := ih fuel input (inPtr + (encodeOp op).length) (opOutput acc op) out2
          outLength hrest (by rw [hacc']; exact hoks) hdropnext (by omega)
          (by rw [hacc', houtLen, hopsLenCons]; omega) hsz2
          (fun j hj => hinv2 j (by omega)) (by simp at hfuel; omega)
        rw [hacc'] at hmain
        obtain ⟨outF, heqF, hszF, hcontF⟩ := hmain
        exact ⟨outF, heqF, hszF, hcontF⟩

/-- A stream serialised by a matching LZF compressor from a nonempty
well-formed operation sequence decompresses to exactly the bytes the
sequence stands for. -/
theorem decompressLZF_of_encodeOps (ops : List LZFOp) (hne : ops ≠ [])
    (hok : opsOk 0 ops) :
    decompressLZF (encodeOps ops) (opsOutput [] ops).length
      = Except.ok (opsOutput [] ops) := by
  unfold decompressLZF
  have hslen : (opsOutput [] ops).length = opsLen ops := by
    rw [opsOutput_length]; simp
  have hmain := lzfRun_encode ops ((encodeOps ops).length + 1) (encodeOps ops) 0 []
    (Array.mkArray (opsOutput [] ops).length 0) (opsOutput [] ops).length hne
    (by simpa using hok) (by simp) (by simp)
    (by simpa using hslen) (by simp)
    (by intro j h; simp at h)
    (by have := length_le_encodeOps_length ops; omega)
  simp only [List.length_nil] at hmain
  obtain ⟨outF, heqF, hszF, hcontF⟩ := hmain
  rw [heqF]
  show Except.ok outF.toList = _
  rw [array_eq_list outF (opsOutput [] ops) hszF hcontF]

/-! ### Shape and error behaviour of the decompressor -/

theorem lzfRun_ok_size :
    ∀ (fuel inPtr outPtr : Nat) (inData : List Nat) (outLength : Nat)
      (out outF : Array Nat), out.size = outLength →
      lzfRun inData outLength fuel inPtr outPtr out = Except.ok outF →
      outF.size = outLength := by
  intro fuel
  induction fuel with
  | zero =>
    intro inPtr outPtr inData outLength out outF _ heq
    rw [lzfRun] at heq
    exact absurd heq (by simp)
  | succ fuel ih =>
    intro inPtr outPtr inData outLength out outF hsize heq
    rw [lzfRun] at heq
    cases hget : inData.get? inPtr with
    | none => rw [hget] at heq; exact absurd heq (by simp)
    | some c =>
      rw [hget] at heq
      simp only at heq
      split at heq
      · split at heq
        · exact absurd heq (by simp)
        · split at heq
          · exact absurd heq (by simp)
          · split at heq
            · exact ih _ _ _ _ _ _ (by rw [litCopy_size]; exact hsize) heq
            · cases heq; rw [litCopy_size]; exact hsize
      · split at heq
        · exact absurd heq (by simp)
        · split at heq
          · exact absurd heq (by simp)
          · split at heq
            · exact absurd heq (by simp)
            · split at heq
              · exact absurd heq (by simp)
              · split at heq
                · exact absurd heq (by simp)
                · split at heq
                  · exact ih _ _ _ _ _ _ (by rw [refCopy_size]; exact hsize) heq
                  · cases heq; rw [refCopy_size]; exact hsize

theorem lzfIp_ge (inPtr c : Nat) : inPtr + 1 ≤ lzfIp inPtr c := by
  unfold lzfIp
  split <;> omega

/-! ## Claim C1 -/

/-- C1 (amended): decompressing (with expected output length = length of the
original) a compressed stream produced by a matching LZF compressor — i.e.
the serialisation `encodeOps ops` of any *nonempty* well-formed operation
sequence, covering originals of length 1 and streams spanning multiple
literal-run/back-reference boundaries — returns exactly the original bytes
`opsOutput [] ops`.  The amendment excludes the length-0 original: its
compressed stream is empty, and the decompressor's `do … while` loop always
reads a control byte, so it errors there (see `C1_counterexample`). -/
theorem C1_lzf_roundtrip (ops : List LZFOp) (hne : ops ≠ []) (hok : opsOk 0 ops) :
    decompressLZF (encodeOps ops) (opsOutput [] ops).length
      = Except.ok (opsOutput [] ops) :=
  decompressLZF_of_encodeOps ops hne hok

/-- C1 counterexample: for the byte sequence of length 0, the only stream a
matching LZF compressor can produce is the empty stream `encodeOps []`
(every operation emits at least one output byte), and decompressing it with
expected output length 0 raises `'Invalid compressed data'` instead of
returning the empty buffer. -/
theorem C1_counterexample :
    opsOutput [] ([] : List LZFOp) = [] ∧
    decompressLZF (encodeOps ([] : List LZFOp)) 0
      = Except.error "Invalid compressed data" := by
  constructor
  · rfl
  · rfl

/-- Witness for C1: a stream with two literal runs flanking a
self-overlapping back-reference (three literal/reference boundaries). -/
theorem C1_lzf_roundtrip_witness :
    decompressLZF (encodeOps [LZFOp.lit [10, 20, 30], LZFOp.ref 3 4, LZFOp.lit [40]])
        (opsOutput [] [LZFOp.lit [10, 20, 30], LZFOp.ref 3 4, LZFOp.lit [40]]).length
      = Except.ok (opsOutput [] [LZFOp.lit [10, 20, 30], LZFOp.ref 3 4, LZFOp.lit [40]]) :=
  C1_lzf_roundtrip [LZFOp.lit [10, 20, 30], LZFOp.ref 3 4, LZFOp.lit [40]]
    (by simp)
    (by refine ⟨⟨by simp, by simp, ?_⟩, ⟨?_, ?_, ?_, ?_, ?_⟩, ⟨by simp, by simp, ?_⟩, trivial⟩ <;> decide)

/-! ## Claim C2 -/

/-- C2: the LZF decompressor never crashes and never returns an under- or
over-filled buffer — every run either raises one of the two error messages
or returns a buffer of exactly the declared output length — and at any
state of the decompression loop it raises an error whenever:
* the input is truncated mid-control-sequence (a back-reference control
  byte with no byte after it; an extended-length escape with no distance
  byte after the extra byte; a literal run longer than the remaining
  input),
* a literal or reference copy would write past the declared output length,
* a back-reference resolves to a position before the start of the output.
The remaining listed condition — a back-reference pointing at or after the
current write position — can never arise: the resolved reference start
`outPtr - ((ctrl & 0x1f) << 8) - 1 - dist` is always strictly less than
`outPtr` (last conjunct), so the corresponding check in the code is
unreachable and that part of the claim holds vacuously. -/
theorem C2_lzf_error_handling :
    (∀ (inData : List Nat) (outLength : Nat),
      (∃ e, decompressLZF inData outLength = Except.error e) ∨
      (∃ outBytes, decompressLZF inData outLength = Except.ok outBytes ∧
        outBytes.length = outLength)) ∧
    (∀ (inData : List Nat) (outLength fuel inPtr outPtr : Nat) (out : Array Nat) (c : Nat),
      inData.get? inPtr = some c → ¬ c < 32 → inData.length ≤ inPtr + 1 →
      lzfRun inData outLength (fuel + 1) inPtr outPtr out
        = Except.error "Invalid compressed data") ∧
    (∀ (inData : List Nat) (outLength fuel inPtr outPtr : Nat) (out : Array Nat) (c : Nat),
      inData.get? inPtr = some c → ¬ c < 32 → c / 32 = 7 →
      inPtr + 1 < inData.length → inData.length ≤ inPtr + 2 →
      lzfRun inData outLength (fuel + 1) inPtr outPtr out
        = Except.error "Invalid compressed data") ∧
    (∀ (inData : List Nat) (outLength fuel inPtr outPtr : Nat) (out : Array Nat) (c : Nat),
      inData.get? inPtr = some c → c < 32 →
      outPtr + (c + 1) ≤ outLength → inData.length < inPtr + 1 + (c + 1) →
      lzfRun inData outLength (fuel + 1) inPtr outPtr out
        = Except.error "Invalid compressed data") ∧
    (∀ (inData : List Nat) (outLength fuel inPtr outPtr : Nat) (out : Array Nat) (c : Nat),
      inData.get? inPtr = some c → c < 32 →
      outLength < outPtr + (c + 1) →
      lzfRun inData outLength (fuel + 1) inPtr outPtr out
        = Except.error "Output buffer is not large enough") ∧
    (∀ (inData : List Nat) (outLength fuel inPtr outPtr : Nat) (out : Array Nat) (c : Nat),
      inData.get? inPtr = some c → ¬ c < 32 →
      lzfIp inPtr c < inData.length →
      outLength < outPtr + lzfLen inData inPtr c + 2 →
      lzfRun inData outLength (fuel + 1) inPtr outPtr out
        = Except.error "Output buffer is not large enough") ∧
    (∀ (inData : List Nat) (outLength fuel inPtr outPtr : Nat) (out : Array Nat) (c : Nat),
      inData.get? inPtr = some c → ¬ c < 32 →
      lzfIp inPtr c < inData.length →
      outPtr + lzfLen inData inPtr c + 2 ≤ outLength →
      (outPtr : Int) - (c % 32) * 256 - 1 - inData.getD (lzfIp inPtr c) 0 < 0 →
      lzfRun inData outLength (fuel + 1) inPtr outPtr out
        = Except.error "Invalid compressed data") ∧
    (∀ (outPtr c dist : Nat),
      (outPtr : Int) - (c % 32) * 256 - 1 - dist < outPtr) := by
  refine ⟨?_, ?_, ?_, ?_, ?_, ?_, ?_, ?_⟩
  · -- shape: error, or a buffer of exactly the declared length
    intro inData outLength
    unfold decompressLZF
    cases heq : lzfRun inData outLength (inData.length + 1) 0 0 (Array.mkArray outLength 0) with
    | error e => exact Or.inl ⟨e, rfl⟩
    | ok outF =>
      refine Or.inr ⟨outF.toList, rfl, ?_⟩
      have := lzfRun_ok_size (inData.length + 1) 0 0 inData outLength
        (Array.mkArray outLength 0) outF (by simp) heq
      simpa using this
  · intro inData outLength fuel inPtr outPtr out c hget hc htr
    rw [lzfRun, hget]
    simp only [if_neg hc, if_pos htr]
  · intro inData outLength fuel inPtr outPtr out c hget hc h7 h1 h2
    rw [lzfRun, hget]
    simp only [lzfLen, lzfIp, if_pos h7, if_neg hc,
      if_neg (by omega : ¬ inData.length ≤ inPtr + 1), if_pos h2]
  · intro inData outLength fuel inPtr outPtr out c hget hc hout htr
    rw [lzfRun, hget]
    simp only [if_pos hc, if_neg (by omega : ¬ (outPtr + (c + 1) > outLength)),
      if_pos (by omega : inPtr + 1 + (c + 1) > inData.length)]
  · intro inData outLength fuel inPtr outPtr out c hget hc hover
    rw [lzfRun, hget]
    simp only [if_pos hc, if_pos (by omega : outPtr + (c + 1) > outLength)]
  · intro inData outLength fuel inPtr outPtr out c hget hc hip hover
    rw [lzfRun, hget]
    have h1 : ¬ inData.length ≤ inPtr + 1 := by
      have := lzfIp_ge inPtr c
      omega
    simp only [if_neg hc, if_neg h1, if_neg (by omega : ¬ inData.length ≤ lzfIp inPtr c),
      if_pos (by omega : outPtr + lzfLen inData inPtr c + 2 > outLength)]
  · intro inData outLength fuel inPtr outPtr out c hget hc hip hout href
    rw [lzfRun, hget]
    have h1 : ¬ inData.length ≤ inPtr + 1 := by
      have := lzfIp_ge inPtr c
      omega
    simp only [if_neg hc, if_neg h1, if_neg (by omega : ¬ inData.length ≤ lzfIp inPtr c),
      if_neg (by omega : ¬ (outPtr + lzfLen inData inPtr c + 2 > outLength)), if_pos href]
  · intro outPtr c dist
    omega

/-- Witness for C2: concrete malformed streams hitting each reachable
failure mode, and a concrete successful run returning exactly the declared
length. -/
theorem C2_witness :
    decompressLZF [32] 5 = Except.error "Invalid compressed data" ∧
    decompressLZF [224, 1] 20 = Except.error "Invalid compressed data" ∧
    decompressLZF [3, 7, 7] 9 = Except.error "Invalid compressed data" ∧
    decompressLZF [1, 7, 7] 1 = Except.error "Output buffer is not large enough" ∧
    decompressLZF [64, 9] 4 = Except.error "Invalid compressed data" ∧
    ((∃ e, decompressLZF [0, 55] 3 = Except.error e) ∨
      (∃ outBytes, decompressLZF [0, 55] 3 = Except.ok outBytes ∧ outBytes.length = 3)) := by
  refine ⟨?_, ?_, ?_, ?_, ?_, C2_lzf_error_handling.1 [0, 55] 3⟩
  · show (lzfRun [32] 5 (0 + 1) 0 0 (Array.mkArray 5 0)).map Array.toList = _
    rw [C2_lzf_error_handling.2.1 [32] 5 0 0 0 (Array.mkArray 5 0) 32 rfl
      (by decide) (by decide)]
    rfl
  · show (lzfRun [224, 1] 20 (2 + 1) 0 0 (Array.mkArray 20 0)).map Array.toList = _
    rw [C2_lzf_error_handling.2.2.1 [224, 1] 20 2 0 0 (Array.mkArray 20 0) 224 rfl
      (by decide) (by decide) (by decide) (by decide)]
    rfl
  · show (lzfRun [3, 7, 7] 9 (3 + 1) 0 0 (Array.mkArray 9 0)).map Array.toList = _
    rw [C2_lzf_error_handling.2.2.2.1 [3, 7, 7] 9 3 0 0 (Array.mkArray 9 0) 3 rfl
      (by decide) (by decide) (by decide)]
    rfl
  · show (lzfRun [1, 7, 7] 1 (3 + 1) 0 0 (Array.mkArray 1 0)).map Array.toList = _
    rw [C2_lzf_error_handling.2.2.2.2.1 [1, 7, 7] 1 3 0 0 (Array.mkArray 1 0) 1 rfl
      (by decide) (by decide)]
    rfl
  · show (lzfRun [64, 9] 4 (2 + 1) 0 0 (Array.mkArray 4 0)).map Array.toList = _
    rw [C2_lzf_error_handling.2.2.2.2.2.2.1 [64, 9] 4 2 0 0 (Array.mkArray 4 0) 64 rfl
      (by decide) (by decide) (by decide) (by decide)]
    rfl

/-! ## Claim C3 -/

/-- C3: at any state of the decompression loop where the control byte `c` is
`≥ 32` and the step succeeds, the decompressor computes
`len = lzfLen = c >> 5` (reading one extra input byte into `len` when
`c >> 5 = 7`), resolves the reference start as
`outPtr - ((c & 0x1f) << 8) - 1 - distanceByte` (the distance byte sitting
at index `lzfIp`), copies exactly `len + 2` bytes from that position one
byte at a time (the loop continues with the cursors advanced by
`lzfIp + 1` / `len + 2`), and — because the copy is byte-at-a-time — a
reference start inside the just-written output reproduces the periodic
pattern `out[refStart + i % (outPtr - refStart)]` of length `len + 2`
rather than a block copy. -/
theorem C3_lzf_backref_step (input : List Nat) (outLength fuel inPtr outPtr : Nat)
    (out : Array Nat) (c : Nat)
    (hget : input.get? inPtr = some c) (hc : 32 ≤ c)
    (hin : lzfIp inPtr c < input.length)
    (hout : outPtr + lzfLen input inPtr c + 2 ≤ outLength)
    (href : 0 ≤ (outPtr : Int) - (c % 32) * 256 - 1 - input.getD (lzfIp inPtr c) 0)
    (hsz : out.size = outLength) :
    ∃ refStart : Nat,
      (refStart : Int) = (outPtr : Int) - (c % 32) * 256 - 1 - input.getD (lzfIp inPtr c) 0 ∧
      refStart < outPtr ∧
      lzfRun input outLength (fuel + 1) inPtr outPtr out =
        (if lzfIp inPtr c + 1 < input.length then
          lzfRun input outLength fuel (lzfIp inPtr c + 1)
            (outPtr + (lzfLen input inPtr c + 2))
            (refCopy out refStart outPtr (lzfLen input inPtr c + 2))
        else Except.ok (refCopy out refStart outPtr (lzfLen input inPtr c + 2))) ∧
      (∀ i, i < lzfLen input inPtr c + 2 →
        (refCopy out refStart outPtr (lzfLen input inPtr c + 2)).getD (outPtr + i) 0
          = out.getD (refStart + i % (outPtr - refStart)) 0) := by
  have hlt : (outPtr : Int) - (c % 32) * 256 - 1 - input.getD (lzfIp inPtr c) 0 < outPtr := by
    omega
  refine ⟨((outPtr : Int) - (c % 32) * 256 - 1 - input.getD (lzfIp inPtr c) 0).toNat,
    by omega, by omega, ?_, ?_⟩
  · by_cases h7 : c / 32 = 7
    · have hip : lzfIp inPtr c = inPtr + 2 := by simp [lzfIp, h7]
      have hlen : lzfLen input inPtr c = 7 + input.getD (inPtr + 1) 0 := by
        simp [lzfLen, h7]
      rw [hip, hlen]
      rw [hip] at href hlt
      rw [hlen] at hout
      exact lzfRun_ref7_step input outLength fuel inPtr outPtr out c hget (by omega) h7
        (by omega) (by rw [hip] at hin; omega) (by omega) href hlt
    · have hip : lzfIp inPtr c = inPtr + 1 := by simp [lzfIp, h7]
      have hlen : lzfLen input inPtr c = c / 32 := by simp [lzfLen, h7]
      rw [hip, hlen]
      rw [hip] at href hlt
      rw [hlen] at hout
      have := lzfRun_ref_step input outLength fuel inPtr outPtr out c hget (by omega) h7
        (by rw [hip] at hin; omega) (by omega) href hlt
      rw [this]
  · intro i hi
    apply refCopy_getD_periodic
    · omega
    · omega
    · exact hi

/-- Witness for C3: a concrete self-overlapping back-reference (control byte
64: `len = 2`, so 4 bytes copied; distance byte 0 resolving to reference
start 0 with the write cursor at 1). -/
theorem C3_witness :
    ∃ refStart : Nat,
      (refStart : Int) = ((1 : Nat) : Int) - (((64 : Nat) : Int) % 32) * 256 - 1
          - (([64, 0].getD (lzfIp 0 64) 0 : Nat) : Int) ∧
      refStart < 1 ∧
      lzfRun [64, 0] 5 (0 + 1) 0 1 (Array.mkArray 5 9) =
        (if lzfIp 0 64 + 1 < [64, 0].length then
          lzfRun [64, 0] 5 0 (lzfIp 0 64 + 1) (1 + (lzfLen [64, 0] 0 64 + 2))
            (refCopy (Array.mkArray 5 9) refStart 1 (lzfLen [64, 0] 0 64 + 2))
        else Except.ok (refCopy (Array.mkArray 5 9) refStart 1 (lzfLen [64, 0] 0 64 + 2))) ∧
      (∀ i, i < lzfLen [64, 0] 0 64 + 2 →
        (refCopy (Array.mkArray 5 9) refStart 1 (lzfLen [64, 0] 0 64 + 2)).getD (1 + i) 0
          = (Array.mkArray 5 9).getD (refStart + i % (1 - refStart)) 0) :=
  C3_lzf_backref_step [64, 0] 5 0 0 1 (Array.mkArray 5 9) 64 (by decide) (by decide)
    (by decide) (by decide) (by decide) (by decide)

/-! ## Header parser (`parseHeader`, PCDLoader.js lines 121-202)

Text is `List Char`; the ASCII fragments of JavaScript's regex character
classes are modelled (`\s` as the ASCII whitespace characters, `.` as any
character except CR/LF); all text appearing in PCD headers is ASCII. -/

/-- JS regex `\s` (ASCII subset). -/
def isWS (c : Char) : Bool :=
  c == ' ' || c == '\t' || c == '\n' || c == '\r' || c == '\x0b' || c == '\x0c'

/-- JS regex `[\r\n]`. -/
def isCRLF (c : Char) : Bool := c == '\r' || c == '\n'

/-- Case-insensitive match of the (lowercase) pattern `pat` at index `i`. -/
def ciEqAt (cs : List Char) : Nat → List Char → Bool
  | _, [] => true
  | i, p :: ps =>
    match cs.get? i with
    | some c => c.toLower == p && ciEqAt cs (i + 1) ps
    | none => false

/-- Match of `/[\r\n]DATA\s(\S*)\s/i` starting at index `i`, returning the
captured group (the `DATA` value token).  The greedy `\S*` must be followed
by one `\s`; a shorter backtracked run would end at a `\S` character, so the
match at `i` succeeds iff the maximal non-whitespace run after the first
`\s` is followed by a whitespace character. -/
def dataMatchAt (cs : List Char) (i : Nat) : Option (List Char) :=
  match cs.get? i with
  | none => none
  | some c0 =>
    if isCRLF c0 && ciEqAt cs (i + 1) "data".data then
      match cs.get? (i + 5) with
      | some w =>
        if isWS w then
          let grp := (cs.drop (i + 6)).takeWhile (fun c => !isWS c)
          match cs.get? (i + 6 + grp.length) with
          | some w2 => if isWS w2 then some grp else none
          | none => none
        else none
      | none => none
    else none

/-- `data.search(/[\r\n]DATA\s(\S*)\s/i)`: index of the first match. -/
def searchData (cs : List Char) : Option Nat :=
  (List.range cs.length).find? (fun i => (dataMatchAt cs i).isSome)

/-- `str.replace(/#.*/gi, '')`: drop every `#` and the rest of its line
(`.` stops at CR/LF, which is kept).  The boolean tracks whether the scan
is inside a comment. -/
def stripCommentsGo : Bool → List Char → List Char
  | _, [] => []
  | true, c :: cs =>
    if isCRLF c then c :: stripCommentsGo false cs else stripCommentsGo true cs
  | false, c :: cs =>
    if c == '#' then stripCommentsGo true cs else c :: stripCommentsGo false cs

def stripComments (cs : List Char) : List Char := stripCommentsGo false cs

/-- Match of `/KEYWORD (.*)/i` at index `i` (keyword given lowercase,
followed by one literal space, capture to end of line). -/
def kwMatchAt (kword cs : List Char) (i : Nat) : Option (List Char) :=
  if ciEqAt cs i kword then
    match cs.get? (i + kword.length) with
    | some c =>
      if c == ' ' then
        some ((cs.drop (i + kword.length + 1)).takeWhile (fun d => !isCRLF d))
      else none
    | none => none
  else none

/-- `/KEYWORD (.*)/i.exec(str)`: first match anywhere in the string. -/
def extractKw (kword cs : List Char) : Option (List Char) :=
  ((List.range cs.length).find? (fun i => (kwMatchAt kword cs i).isSome)).bind
    (fun i => kwMatchAt kword cs i)

def digit? (c : Char) : Bool := '0' ≤ c && c ≤ '9'

def digitsToNat (ds : List Char) : Nat :=
  ds.foldl (fun acc c => acc * 10 + (c.toNat - 48)) 0

/-- `parseInt(s, 10)`: skip leading whitespace, optional sign, then the
leading decimal-digit run; `NaN` (`none`) if there is none.  (Hex prefixes
do not occur in PCD headers and are not modelled.) -/
def parseIntJS (cs : List Char) : JSInt :=
  let cs1 := cs.dropWhile (fun c => isWS c)
  let sr : Int × List Char :=
    match cs1 with
    | '-' :: rest => (-1, rest)
    | '+' :: rest => (1, rest)
    | rest => (1, rest)
  let ds := sr.2.takeWhile digit?
  if ds.isEmpty then none else some (sr.1 * digitsToNat ds)

/-- Exponent part of a JS float literal (after `e`/`E`); an absent digit
run contributes exponent 0 (the exponent is then not part of the match). -/
def expPart (cs : List Char) : Int :=
  let sr : Int × List Char :=
    match cs with
    | '-' :: rest => (-1, rest)
    | '+' :: rest => (1, rest)
    | rest => (1, rest)
  let ds := sr.2.takeWhile digit?
  if ds.isEmpty then 0 else sr.1 * digitsToNat ds

/-- `parseFloat(s)`: leading decimal numeral, with optional fraction and
exponent, as an exact rational.  (IEEE double rounding is not modelled; the
values appearing in the claims are exactly representable.  `parseFloat` of
a missing/non-numeric token is `NaN`, i.e. `none`.) -/
def parseFloatJS (cs : List Char) : JSNum :=
  let cs1 := cs.dropWhile (fun c => isWS c)
  let sr : ℚ × List Char :=
    match cs1 with
    | '-' :: rest => (-1, rest)
    | '+' :: rest => (1, rest)
    | rest => (1, rest)
  let ints := sr.2.takeWhile digit?
  let cs3 := sr.2.drop ints.length
  let fr : List Char × List Char :=
    match cs3 with
    | '.' :: rest => (rest.takeWhile digit?, rest.drop (rest.takeWhile digit?).length)
    | rest => ([], rest)
  if ints.isEmpty && fr.1.isEmpty then none
  else
    let mantissa : ℚ := (digitsToNat ints : ℚ) + (digitsToNat fr.1 : ℚ) / (10 : ℚ) ^ fr.1.length
    let expo : Int :=
      match fr.2 with
      | 'e' :: rest => expPart rest
      | 'E' :: rest => expPart rest
      | _ => 0
    some (sr.1 * mantissa * (10 : ℚ) ^ expo)

/-- JS `null` (an absent header attribute) converts to `0` in arithmetic;
`NaN` stays `NaN`. -/
def nullToNum (o : Option JSInt) : JSInt :=
  match o with
  | none => some 0
  | some j => j

/-- The parsed header.  `version` and `viewpoint` are parsed by the source
but never read downstream and are omitted.  `offset` is the JS object
`PCDheader.offset` as an association list, most recent binding first. -/
structure PCDHeader where
  data : List Char
  headerLen : Nat
  fields : List (List Char)
  size : Option (List JSInt)
  typ : Option (List (List Char))
  count : List JSInt
  width : Option JSInt
  height : Option JSInt
  points : JSInt
  offset : List (List Char × JSInt)
  rowSize : JSInt
deriving DecidableEq

/-- The offset/rowSize loop (lines 189-199).  For `ascii`, `offset[f] = i`;
otherwise `offset[f]` is the running `sizeSum`, which grows by
`size[i] * count[i]` (an out-of-range read is `undefined` and makes the sum
`NaN`); `PCDheader.size[i]` with `size` null throws a `TypeError`. -/
def offsetLoop (isAscii : Bool) (size : Option (List JSInt)) (count : List JSInt) :
    List (List Char) → Nat → JSInt → List (List Char × JSInt) →
    Except String (List (List Char × JSInt) × JSInt)
  | [], _, sizeSum, acc => Except.ok (acc, sizeSum)
  | f :: fs, i, sizeSum, acc =>
    if isAscii then
      offsetLoop isAscii size count fs (i + 1) sizeSum ((f, some (i : Int)) :: acc)
    else
      match size with
      | none => Except.error "TypeError"
      | some sz =>
        offsetLoop isAscii size count fs (i + 1)
          (jadd sizeSum (jmul (undef2nan (sz.get? i)) (undef2nan (count.get? i))))
          ((f, sizeSum) :: acc)

/-- Lookup in the offset object (`PCDheader.offset[name]`); the most recent
binding wins, as for JS object assignment. -/
def olookup (m : List (List Char × JSInt)) (k : List Char) : Option JSInt :=
  (m.find? (fun p => p.1 == k)).map Prod.snd

/-- `parseHeader(data)`.  `result1 = data.search(/[\r\n]DATA\s(\S*)\s/i)`;
`result2` re-runs the regex on `data.slice(result1 - 1)`.  If the search
fails, `result1 = -1`, the slice is the last 2 characters, the regex cannot
match there (a match needs at least 7 characters) and `result2[1]` throws a
`TypeError`.  If `result1 = 0` the slice is the last 1 character and the
same `TypeError` occurs.  Otherwise the first match in the slice is the
match at `result1` (a match one position earlier would need the CR/LF at
`result1` to be `D`/`d`), so `PCDheader.data` is its group and
`headerLen = result2[0].length + result1 = result1 + 7 + group length`. -/
def hdrFields (str : List Char) : List (List Char) :=
  match extractKw "fields".data str with
  | some v => v.splitOn ' '
  | none => []

def hdrSize (str : List Char) : Option (List JSInt) :=
  (extractKw "size".data str).map (fun v => (v.splitOn ' ').map parseIntJS)

def hdrType (str : List Char) : Option (List (List Char)) :=
  (extractKw "type".data str).map (fun v => v.splitOn ' ')

def hdrCount (str : List Char) (fields : List (List Char)) : List JSInt :=
  match extractKw "count".data str with
  | some v => (v.splitOn ' ').map parseIntJS
  | none => fields.map (fun _ => some 1)

def hdrWidth (str : List Char) : Option JSInt :=
  (extractKw "width".data str).map parseIntJS

def hdrHeight (str : List Char) : Option JSInt :=
  (extractKw "height".data str).map parseIntJS

/-- `PCDheader.points`, with the `width * height` default when the
`POINTS` keyword is absent (JS `null` operands convert to 0, `NaN`
propagates). -/
def hdrPoints (str : List Char) : JSInt :=
  match (extractKw "points".data str).map parseIntJS with
  | some p => p
  | none => jmul (nullToNum (hdrWidth str)) (nullToNum (hdrHeight str))

/-- Header construction once the `DATA` match at index `i` with value token
`grp` is known. -/
def mkHeader (cs : List Char) (i : Nat) (grp : List Char) : Except String PCDHeader :=
  let headerLen := i + 7 + grp.length
  let str := stripComments (cs.take headerLen)
  let fields := hdrFields str
  match offsetLoop (grp == "ascii".data) (hdrSize str) (hdrCount str fields) fields
      0 (some 0) [] with
  | Except.error e => Except.error e
  | Except.ok (offs, rowSize) =>
    Except.ok (PCDHeader.mk grp headerLen fields (hdrSize str) (hdrType str)
      (hdrCount str fields) (hdrWidth str) (hdrHeight str) (hdrPoints str) offs rowSize)

def parseHeader (cs : List Char) : Except String PCDHeader :=
  match searchData cs with
  | none => Except.error "TypeError"
  | some i =>
    if i = 0 then Except.error "TypeError"
    else
      match dataMatchAt cs i with
      | none => Except.error "TypeError"
      | some grp => mkHeader cs i grp

/-! ## Binary value decoding

IEEE-754 single-precision values are decoded to exact rationals; NaN and
the infinities (exponent field 255) are `none`.  `DataView` reads past the
end of the buffer throw a `RangeError`; a `NaN` byte offset is converted by
`ToIndex` to 0 and a negative one throws a `RangeError`. -/

def f32FromBits (bits : Nat) : JSNum :=
  let s := bits / 2147483648
  let ex := (bits / 8388608) % 256
  let frac := bits % 8388608
  if ex = 255 then none
  else
    let mag : ℚ :=
      if ex = 0 then (frac : ℚ) / (2 : ℚ) ^ (149 : Nat)
      else ((8388608 + frac : Nat) : ℚ) * (2 : ℚ) ^ ((ex : Int) - 150)
    some (if s = 1 then -mag else mag)

def readF32 (bytes : List Nat) (addr : Nat) (le : Bool) : Except String JSNum :=
  match bytes.get? addr, bytes.get? (addr + 1), bytes.get? (addr + 2), bytes.get? (addr + 3) with
  | some b0, some b1, some b2, some b3 =>
    Except.ok (f32FromBits (if le then b0 + 256 * b1 + 65536 * b2 + 16777216 * b3
      else b3 + 256 * b2 + 65536 * b1 + 16777216 * b0))
  | _, _, _, _ => Except.error "RangeError"

/-- Signed 32-bit value of a bit pattern. -/
def int32OfBits (bits : Nat) : Int :=
  if 2147483648 ≤ bits then (bits : Int) - 4294967296 else (bits : Int)

def readI32 (bytes : List Nat) (addr : Nat) (le : Bool) : Except String JSInt :=
  match bytes.get? addr, bytes.get? (addr + 1), bytes.get? (addr + 2), bytes.get? (addr + 3) with
  | some b0, some b1, some b2, some b3 =>
    Except.ok (some (int32OfBits (if le then b0 + 256 * b1 + 65536 * b2 + 16777216 * b3
      else b3 + 256 * b2 + 65536 * b1 + 16777216 * b0)))
  | _, _, _, _ => Except.error "RangeError"

def readU8 (bytes : List Nat) (addr : Nat) : Except String Nat :=
  match bytes.get? addr with
  | some b => Except.ok b
  | none => Except.error "RangeError"

/-- `ToIndex` applied to a `DataView` byte offset: `NaN` becomes 0, a
negative value throws a `RangeError`. -/
def toIndex (j : JSInt) : Except String Nat :=
  match j with
  | none => Except.ok 0
  | some v => if v < 0 then Except.error "RangeError" else Except.ok v.toNat

/-- Truncation toward zero (JS `ToIntegerOrInfinity` for finite values). -/
def truncQ (q : ℚ) : Int := if q < 0 then -((-q).floor) else q.floor

/-- JS `ToInt32` of a number (`NaN`/non-finite → 0; truncate, wrap mod 2^32
into the signed range). -/
def toInt32 (v : JSNum) : Int :=
  match v with
  | none => 0
  | some q =>
    let u := (truncQ q % 4294967296 + 4294967296) % 4294967296
    if 2147483648 ≤ u then u - 4294967296 else u

/-- Round half to even. -/
def rne (x : ℚ) : Int :=
  let f := ⌊x⌋
  let r := x - (f : ℚ)
  if r < 1 / 2 then f else if 1 / 2 < r then f + 1 else if f % 2 = 0 then f else f + 1

/-- Binary exponent of a positive rational (largest `e` with `2^e ≤ a`),
searched over the single-precision range. -/
def findExp (a : ℚ) : Int :=
  (((List.range 280).map (fun k => (128 : Int) - k)).find?
    (fun e => (2 : ℚ) ^ e ≤ a)).getD (-152)

/-- Bit pattern of the nearest single-precision float (round to nearest,
ties to even; overflow to the infinity pattern).  This models the
`farr[0] = float; new Int32Array(farr.buffer)[0]` reinterpretation used for
ascii `rgb` fields of declared type `F`. -/
def qToF32bits (q : ℚ) : Nat :=
  if q = 0 then 0
  else
    let s : Nat := if q < 0 then 2147483648 else 0
    let a := |q|
    let e := findExp a
    if e < -126 then
      s + (rne (a * (2 : ℚ) ^ (149 : Nat))).toNat
    else if 127 < e then
      s + 2139095040
    else
      let m := rne (a * (2 : ℚ) ^ (23 - e))
      s + (e + 127).toNat * 8388608 + (m.toNat - 8388608)

/-- Float32 bit pattern of a possibly-NaN parsed value (the canonical quiet
NaN pattern for `NaN`). -/
def f32bitsOfJSNum (v : JSNum) : Nat :=
  match v with
  | none => 2143289344
  | some q => qToF32bits q

/-- The three colour channels `(rgb >> 16) & 0xff`, `(rgb >> 8) & 0xff`,
`rgb & 0xff` of a signed 32-bit packed value, each divided by 255.
`convertSRGBToLinear` (a transcendental `pow`-based componentwise map on
floats) is not modelled; the recorded values are the channel values fed to
it.  No claim depends on the converted values, only on how many are
produced. -/
def rgbChannels (v : Int) : List ℚ :=
  let u := ((v % 4294967296 + 4294967296) % 4294967296).toNat
  [((u / 65536) % 256 : ℚ) / 255, ((u / 256) % 256 : ℚ) / 255, ((u % 256 : ℚ)) / 255]

/-- Lossy byte-to-text decoding (`new TextDecoder().decode(data)`), modelled
for the ASCII range; bytes ≥ 0x80 (which occur only in binary payloads,
after every offset the parser uses) become the replacement character. -/
def bytesToChars (bs : List Nat) : List Char :=
  bs.map (fun b => if b < 128 then Char.ofNat b else '�')

/-! ## Body decoders and assembler (`parse`, PCDLoader.js lines 204-419) -/

/-- The five per-semantic-group accumulator arrays of `parse`:
`position`, `normal`, `color`, `intensity`, `label`. -/
structure Arrays where
  position : List JSNum
  normal : List JSNum
  color : List ℚ
  intensity : List JSNum
  label : List JSInt
deriving DecidableEq

def emptyArrays : Arrays := Arrays.mk [] [] [] [] []

def Arrays.appendA (a b : Arrays) : Arrays :=
  Arrays.mk (a.position ++ b.position) (a.normal ++ b.normal) (a.color ++ b.color)
    (a.intensity ++ b.intensity) (a.label ++ b.label)

def exMapM {α : Type} (f : α → Except String Arrays) : List α → Except String (List Arrays)
  | [] => Except.ok []
  | x :: xs => do
    let a ← f x
    let r ← exMapM f xs
    Except.ok (a :: r)

def concatArrays (l : List Arrays) : Arrays := l.foldr Arrays.appendA emptyArrays

/-- `line[idx]` for a possibly-`undefined`/`NaN` column index. -/
def tokenAt (tokens : List (List Char)) (idx : Option JSInt) : Option (List Char) :=
  match idx with
  | some (some v) => if v < 0 then none else tokens.get? v.toNat
  | _ => none

/-- `parseFloat(line[idx])` (`NaN` when the token is missing). -/
def readTok (tokens : List (List Char)) (idx : Option JSInt) : JSNum :=
  match tokenAt tokens idx with
  | some t => parseFloatJS t
  | none => none

/-- `parseInt(line[idx])`. -/
def parseIntTok (tokens : List (List Char)) (idx : Option JSInt) : JSInt :=
  match tokenAt tokens idx with
  | some t => parseIntJS t
  | none => none

/-- `PCDheader.fields.indexOf(name)` / `findIndex`, as an optional index. -/
def fieldIdx (H : PCDHeader) (name : List Char) : Option Nat :=
  H.fields.findIdx? (fun f => f == name)

/-- `PCDheader.size[idx]`: a `TypeError` when `SIZE` was absent (`size` is
null), `undefined` (→ `NaN`) when the index is out of range or `-1`. -/
def sizeAt (size : Option (List JSInt)) (idx : Option Nat) : Except String JSInt :=
  match size with
  | none => Except.error "TypeError"
  | some l =>
    Except.ok (match idx with
      | some n => undef2nan (l.get? n)
      | none => none)

/-- Loop bound `i < PCDheader.points` (`NaN` or negative → no iterations). -/
def ptsNat (p : JSInt) : Nat :=
  match p with
  | some v => v.toNat
  | none => 0

/-- One line of the `ascii` body (lines 231-278): split on spaces, then for
each recognized group present in `offset` read the group's columns.  Only
`offset.x` (resp. `normal_x`) gates the triple; missing `y`/`z` columns
index `line[undefined]` and parse to `NaN`. -/
def arPos (H : PCDHeader) (tokens : List (List Char)) : List JSNum :=
  match olookup H.offset "x".data with
  | none => []
  | some ox =>
    [readTok tokens (some ox), readTok tokens (olookup H.offset "y".data),
      readTok tokens (olookup H.offset "z".data)]

def arCol (H : PCDHeader) (tokens : List (List Char)) : Except String (List ℚ) :=
  match olookup H.offset "rgb".data with
  | none => Except.ok []
  | some orgb =>
    match H.typ with
    | none => Except.error "TypeError"  -- PCDheader.type[rgb_field_index] with type null
    | some ts =>
      let t : Option (List Char) :=
        match H.fields.findIdx? (fun f => f == "rgb".data) with
        | some n => ts.get? n
        | none => none
      let fl := readTok tokens (some orgb)
      let rgbI : Int :=
        if t == some "F".data then int32OfBits (f32bitsOfJSNum fl) else toInt32 fl
      Except.ok (rgbChannels rgbI)

def arNor (H : PCDHeader) (tokens : List (List Char)) : List JSNum :=
  match olookup H.offset "normal_x".data with
  | none => []
  | some onx =>
    [readTok tokens (some onx), readTok tokens (olookup H.offset "normal_y".data),
      readTok tokens (olookup H.offset "normal_z".data)]

def arInt (H : PCDHeader) (tokens : List (List Char)) : List JSNum :=
  match olookup H.offset "intensity".data with
  | none => []
  | some oi => [readTok tokens (some oi)]

def arLab (H : PCDHeader) (tokens : List (List Char)) : List JSInt :=
  match olookup H.offset "label".data with
  | none => []
  | some ol => [parseIntTok tokens (some ol)]

def asciiRow (H : PCDHeader) (line : List Char) : Except String Arrays := do
  let tokens := line.splitOn ' '
  let col ← arCol H tokens
  Except.ok (Arrays.mk (arPos H tokens) (arNor H tokens) col (arInt H tokens)
    (arLab H tokens))

/-- The `ascii` body decoder (lines 223-279): strip the header, split on
newlines, skip lines that are exactly empty, decode each remaining line. -/
def parseAsciiBody (H : PCDHeader) (text : List Char) : Except String Arrays := do
  let pcdData := text.drop H.headerLen
  let lines := pcdData.splitOn '\n'
  let rows := lines.filter (fun l => !(l == ([] : List Char)))
  let as ← exMapM (asciiRow H) rows
  Except.ok (concatArrays as)

/-- Positions of one `binary_compressed` point: the value of field `f` is
read at byte address `points * offset[f] + size[indexOf f] * i` of the
decompressed column-major buffer (`NaN` propagates through the JS
arithmetic and is turned into offset 0 by `ToIndex`). -/
def cpPos (H : PCDHeader) (dec : List Nat) (le : Bool) (i : Nat) :
    Except String (List JSNum) :=
  match olookup H.offset "x".data with
  | none => Except.ok []
  | some ox => do
    let sx ← sizeAt H.size (fieldIdx H "x".data)
    let sy ← sizeAt H.size (fieldIdx H "y".data)
    let sz ← sizeAt H.size (fieldIdx H "z".data)
    let ax ← toIndex (jadd (jmul H.points ox) (jmul sx (some (i : Int))))
    let ay ← toIndex (jadd (jmul H.points (undef2nan (olookup H.offset "y".data)))
      (jmul sy (some (i : Int))))
    let az ← toIndex (jadd (jmul H.points (undef2nan (olookup H.offset "z".data)))
      (jmul sz (some (i : Int))))
    let vx ← readF32 dec ax le
    let vy ← readF32 dec ay le
    let vz ← readF32 dec az le
    Except.ok [vx, vy, vz]

/-- Colour bytes of one `binary_compressed` point, read at
`base + 2/+ 1/+ 0` with `base = points * offset.rgb + size[indexOf rgb] * i`
(the `+ 2` happens in JS number arithmetic before `ToIndex`). -/
def cpCol (H : PCDHeader) (dec : List Nat) (i : Nat) : Except String (List ℚ) :=
  match olookup H.offset "rgb".data with
  | none => Except.ok []
  | some orgb => do
    let srgb ← sizeAt H.size (fieldIdx H "rgb".data)
    let base := jadd (jmul H.points orgb) (jmul srgb (some (i : Int)))
    let ar ← toIndex (jadd base (some 2))
    let ag ← toIndex (jadd base (some 1))
    let ab ← toIndex (jadd base (some 0))
    let r ← readU8 dec ar
    let g ← readU8 dec ag
    let b ← readU8 dec ab
    Except.ok [(r : ℚ) / 255, (g : ℚ) / 255, (b : ℚ) / 255]

/-- Normals of one `binary_compressed` point. -/
def cpNor (H : PCDHeader) (dec : List Nat) (le : Bool) (i : Nat) :
    Except String (List JSNum) :=
  match olookup H.offset "normal_x".data with
  | none => Except.ok []
  | some onx => do
    let sx ← sizeAt H.size (fieldIdx H "normal_x".data)
    let sy ← sizeAt H.size (fieldIdx H "normal_y".data)
    let sz ← sizeAt H.size (fieldIdx H "normal_z".data)
    let ax ← toIndex (jadd (jmul H.points onx) (jmul sx (some (i : Int))))
    let ay ← toIndex (jadd (jmul H.points (undef2nan (olookup H.offset "normal_y".data)))
      (jmul sy (some (i : Int))))
    let az ← toIndex (jadd (jmul H.points (undef2nan (olookup H.offset "normal_z".data)))
      (jmul sz (some (i : Int))))
    let vx ← readF32 dec ax le
    let vy ← readF32 dec ay le
    let vz ← readF32 dec az le
    Except.ok [vx, vy, vz]

/-- Intensity of one `binary_compressed` point. -/
def cpInt (H : PCDHeader) (dec : List Nat) (le : Bool) (i : Nat) :
    Except String (List JSNum) :=
  match olookup H.offset "intensity".data with
  | none => Except.ok []
  | some oi => do
    let si ← sizeAt H.size (fieldIdx H "intensity".data)
    let ai ← toIndex (jadd (jmul H.points oi) (jmul si (some (i : Int))))
    let vi ← readF32 dec ai le
    Except.ok [vi]

/-- Label of one `binary_compressed` point. -/
def cpLab (H : PCDHeader) (dec : List Nat) (le : Bool) (i : Nat) :
    Except String (List JSInt) :=
  match olookup H.offset "label".data with
  | none => Except.ok []
  | some ol => do
    let sl ← sizeAt H.size (fieldIdx H "label".data)
    let al ← toIndex (jadd (jmul H.points ol) (jmul sl (some (i : Int))))
    let vl ← readI32 dec al le
    Except.ok [vl]

/-- One point of the `binary_compressed` body (lines 296-348). -/
def compressedPoint (H : PCDHeader) (dec : List Nat) (le : Bool) (i : Nat) :
    Except String Arrays := do
  let pos ← cpPos H dec le i
  let col ← cpCol H dec i
  let nor ← cpNor H dec le i
  let intens ← cpInt H dec le i
  let lab ← cpLab H dec le i
  Except.ok (Arrays.mk pos nor col intens lab)

/-- The `binary_compressed` body decoder (lines 286-349): read the two
little-endian u32 size prefixes, decompress, then read every point from the
column-major decompressed buffer.  (`new Uint32Array(slice)` needs 8 bytes
and `new Uint8Array(data, headerLen + 8, compressedSize)` throws a
`RangeError` when it overruns the buffer.) -/
def parseCompressedBody (H : PCDHeader) (bytes : List Nat) (le : Bool) :
    Except String Arrays := do
  let b := bytes.drop H.headerLen
  match b.get? 0, b.get? 1, b.get? 2, b.get? 3, b.get? 4, b.get? 5, b.get? 6, b.get? 7 with
  | some s0, some s1, some s2, some s3, some t0, some t1, some t2, some t3 =>
    let compressedSize := s0 + 256 * s1 + 65536 * s2 + 16777216 * s3
    let decompressedSize := t0 + 256 * t1 + 65536 * t2 + 16777216 * t3
    if bytes.length < H.headerLen + 8 + compressedSize then Except.error "RangeError"
    else do
      let comp := (bytes.drop (H.headerLen + 8)).take compressedSize
      let dec ← decompressLZF comp decompressedSize
      let as ← exMapM (compressedPoint H dec le) (List.range (ptsNat H.points))
      Except.ok (concatArrays as)
  | _, _, _, _, _, _, _, _ => Except.error "RangeError"

/-- Row base address of `binary` point `i`: the source accumulates
`row += rowSize`, so `row` is 0 — a plain number — at `i = 0` even when
`rowSize` is `NaN`. -/
def bpRow (H : PCDHeader) (i : Nat) : JSInt :=
  if i = 0 then some 0 else jmul H.rowSize (some (i : Int))

/-- Positions of one `binary` point, row-major: field `f` is read at byte
address `row + offset[f]`. -/
def bpPos (H : PCDHeader) (view : List Nat) (le : Bool) (i : Nat) :
    Except String (List JSNum) :=
  match olookup H.offset "x".data with
  | none => Except.ok []
  | some ox => do
    let ax ← toIndex (jadd (bpRow H i) ox)
    let ay ← toIndex (jadd (bpRow H i) (undef2nan (olookup H.offset "y".data)))
    let az ← toIndex (jadd (bpRow H i) (undef2nan (olookup H.offset "z".data)))
    let vx ← readF32 view ax le
    let vy ← readF32 view ay le
    let vz ← readF32 view az le
    Except.ok [vx, vy, vz]

/-- Colour bytes of one `binary` point, at `row + offset.rgb + 2/+ 1/+ 0`. -/
def bpCol (H : PCDHeader) (view : List Nat) (i : Nat) : Except String (List ℚ) :=
  match olookup H.offset "rgb".data with
  | none => Except.ok []
  | some orgb => do
    let ar ← toIndex (jadd (jadd (bpRow H i) orgb) (some 2))
    let ag ← toIndex (jadd (jadd (bpRow H i) orgb) (some 1))
    let ab ← toIndex (jadd (jadd (bpRow H i) orgb) (some 0))
    let r ← readU8 view ar
    let g ← readU8 view ag
    let b ← readU8 view ab
    Except.ok [(r : ℚ) / 255, (g : ℚ) / 255, (b : ℚ) / 255]

/-- Normals of one `binary` point. -/
def bpNor (H : PCDHeader) (view : List Nat) (le : Bool) (i : Nat) :
    Except String (List JSNum) :=
  match olookup H.offset "normal_x".data with
  | none => Except.ok []
  | some onx => do
    let ax ← toIndex (jadd (bpRow H i) onx)
    let ay ← toIndex (jadd (bpRow H i) (undef2nan (olookup H.offset "normal_y".data)))
    let az ← toIndex (jadd (bpRow H i) (undef2nan (olookup H.offset "normal_z".data)))
    let vx ← readF32 view ax le
    let vy ← readF32 view ay le
    let vz ← readF32 view az le
    Except.ok [vx, vy, vz]

/-- Intensity of one `binary` point. -/
def bpInt (H : PCDHeader) (view : List Nat) (le : Bool) (i : Nat) :
    Except String (List JSNum) :=
  match olookup H.offset "intensity".data with
  | none => Except.ok []
  | some oi => do
    let ai ← toIndex (jadd (bpRow H i) oi)
    let vi ← readF32 view ai le
    Except.ok [vi]

/-- Label of one `binary` point. -/
def bpLab (H : PCDHeader) (view : List Nat) (le : Bool) (i : Nat) :
    Except String (List JSInt) :=
  match olookup H.offset "label".data with
  | none => Except.ok []
  | some ol => do
    let al ← toIndex (jadd (bpRow H i) ol)
    let vl ← readI32 view al le
    Except.ok [vl]

/-- One point of the `binary` body (lines 358-392). -/
def binaryPoint (H : PCDHeader) (view : List Nat) (le : Bool) (i : Nat) :
    Except String Arrays := do
  let pos ← bpPos H view le i
  let col ← bpCol H view i
  let nor ← bpNor H view le i
  let intens ← bpInt H view le i
  let lab ← bpLab H view le i
  Except.ok (Arrays.mk pos nor col intens lab)

/-- The `binary` body decoder (lines 352-393).  (`new DataView(data,
headerLen)` throws a `RangeError` when `headerLen` exceeds the buffer.) -/
def parseBinaryBody (H : PCDHeader) (bytes : List Nat) (le : Bool) :
    Except String Arrays := do
  if bytes.length < H.headerLen then Except.error "RangeError"
  else do
    let view := bytes.drop H.headerLen
    let as ← exMapM (binaryPoint H view le) (List.range (ptsNat H.points))
    Except.ok (concatArrays as)

/-- The assembled output record (lines 398-418): each geometry attribute is
set iff its accumulator array is nonempty. -/
structure PCDResult where
  position : Option (List JSNum)
  normal : Option (List JSNum)
  color : Option (List ℚ)
  intensity : Option (List JSNum)
  label : Option (List JSInt)
deriving DecidableEq

/-- `if (arr.length > 0) geometry.setAttribute(...)`. -/
def emit {α : Type} (l : List α) : Option (List α) :=
  if l.isEmpty then none else some l

/-- `parse(data)`: decode the text, parse the header, run the body decoder
selected by the `DATA` value (the three `if` branches in the source touch
disjoint cases, modelled as appends), and assemble the output record.
`headerLen` counts characters while the binary decoders slice bytes; the
two agree because the header region is ASCII and `bytesToChars` is
one-to-one per byte. -/
def parse (bytes : List Nat) (littleEndian : Bool) : Except String PCDResult := do
  let text := bytesToChars bytes
  let H ← parseHeader text
  let a1 ←
    if H.data == "ascii".data then parseAsciiBody H text else Except.ok emptyArrays
  let a2 ←
    if H.data == "binary_compressed".data then parseCompressedBody H bytes littleEndian
    else Except.ok emptyArrays
  let a3 ←
    if H.data == "binary".data then parseBinaryBody H bytes littleEndian
    else Except.ok emptyArrays
  let A := Arrays.appendA a1 (Arrays.appendA a2 a3)
  Except.ok (PCDResult.mk (emit A.position) (emit A.normal) (emit A.color)
    (emit A.intensity) (emit A.label))

/-! ### Header inversion lemmas -/

theorem mkHeader_inv (cs : List Char) (i : Nat) (grp : List Char) (H : PCDHeader)
    (hok : mkHeader cs i grp = Except.ok H) :
    H.data = grp ∧
    H.headerLen = i + 7 + grp.length ∧
    H.fields = hdrFields (stripComments (cs.take (i + 7 + grp.length))) ∧
    H.size = hdrSize (stripComments (cs.take (i + 7 + grp.length))) ∧
    H.typ = hdrType (stripComments (cs.take (i + 7 + grp.length))) ∧
    H.count = hdrCount (stripComments (cs.take (i + 7 + grp.length))) H.fields ∧
    H.width = hdrWidth (stripComments (cs.take (i + 7 + grp.length))) ∧
    H.height = hdrHeight (stripComments (cs.take (i + 7 + grp.length))) ∧
    H.points = hdrPoints (stripComments (cs.take (i + 7 + grp.length))) ∧
    offsetLoop (grp == "ascii".data) H.size H.count H.fields 0 (some 0) []
      = Except.ok (H.offset, H.rowSize) := by
  unfold mkHeader at hok
  simp only at hok
  cases hol : offsetLoop (grp == "ascii".data)
      (hdrSize (stripComments (cs.take (i + 7 + grp.length))))
      (hdrCount (stripComments (cs.take (i + 7 + grp.length)))
        (hdrFields (stripComments (cs.take (i + 7 + grp.length)))))
      (hdrFields (stripComments (cs.take (i + 7 + grp.length)))) 0 (some 0) [] with
  | error e => rw [hol] at hok; exact absurd hok (by simp)
  | ok pr =>
    rw [hol] at hok
    obtain ⟨offs, rowSize⟩ := pr
    cases hok
    refine ⟨rfl, rfl, rfl, rfl, rfl, rfl, rfl, rfl, rfl, hol⟩

theorem parseHeader_ok_inv (cs : List Char) (H : PCDHeader)
    (hok : parseHeader cs = Except.ok H) :
    ∃ i grp, searchData cs = some i ∧ i ≠ 0 ∧ dataMatchAt cs i = some grp ∧
      mkHeader cs i grp = Except.ok H := by
  unfold parseHeader at hok
  cases hse : searchData cs with
  | none => rw [hse] at hok; exact absurd hok (by simp)
  | some i =>
    rw [hse] at hok
    simp only at hok
    by_cases hi : i = 0
    · rw [if_pos hi] at hok; exact absurd hok (by simp)
    · rw [if_neg hi] at hok
      cases hdm : dataMatchAt cs i with
      | none => rw [hdm] at hok; exact absurd hok (by simp)
      | some grp =>
        rw [hdm] at hok
        simp only at hok
        exact ⟨i, grp, rfl, hi, hdm, hok⟩

/-- Structure of a successful match of `/[\r\n]DATA\s(\S*)\s/i` at `i`:
a CR/LF at `i`, and the group is the maximal non-whitespace run after the
`DATA` keyword's separator, terminated by a whitespace character at index
`i + 6 + group length`. -/
theorem dataMatchAt_some (cs : List Char) (i : Nat) (grp : List Char)
    (h : dataMatchAt cs i = some grp) :
    (∃ c0, cs.get? i = some c0 ∧ isCRLF c0 = true) ∧
    grp = (cs.drop (i + 6)).takeWhile (fun c => !isWS c) ∧
    (∃ w2, cs.get? (i + 6 + grp.length) = some w2 ∧ isWS w2 = true) := by
  unfold dataMatchAt at h
  cases hc0 : cs.get? i with
  | none => rw [hc0] at h; exact absurd h (by simp)
  | some c0 =>
    rw [hc0] at h
    simp only at h
    by_cases h1 : (isCRLF c0 && ciEqAt cs (i + 1) "data".data) = true
    · rw [if_pos h1] at h
      cases hw : cs.get? (i + 5) with
      | none => rw [hw] at h; exact absurd h (by simp)
      | some w =>
        rw [hw] at h
        simp only at h
        by_cases h2 : isWS w = true
        · rw [if_pos h2] at h
          cases hw2 : cs.get? (i + 6 + ((cs.drop (i + 6)).takeWhile (fun c => !isWS c)).length) with
          | none => rw [hw2] at h; exact absurd h (by simp)
          | some w2 =>
            rw [hw2] at h
            simp only at h
            by_cases h3 : isWS w2 = true
            · rw [if_pos h3] at h
              cases h
              have h1' := h1
              simp only [Bool.and_eq_true] at h1'
              exact ⟨⟨c0, rfl, h1'.1⟩, rfl, ⟨w2, hw2, h3⟩⟩
            · rw [if_neg h3] at h; exact absurd h (by simp)
        · rw [if_neg h2] at h; exact absurd h (by simp)
    · rw [if_neg h1] at h; exact absurd h (by simp)

deriving instance DecidableEq for Except

/-! ## Claim C5 -/

/-- C5: whenever the `POINTS` keyword is absent from the (comment-stripped)
header text and `WIDTH`/`HEIGHT` parse to integers `w`/`h`, the parsed
point count is `w * h`. -/
theorem C5_points_default (cs : List Char) (H : PCDHeader) (w h : Int)
    (hok : parseHeader cs = Except.ok H)
    (hpts : extractKw "points".data (stripComments (cs.take H.headerLen)) = none)
    (hw : hdrWidth (stripComments (cs.take H.headerLen)) = some (some w))
    (hh : hdrHeight (stripComments (cs.take H.headerLen)) = some (some h)) :
    H.points = some (w * h) := by
  obtain ⟨i, grp, _, _, _, hmk⟩ := parseHeader_ok_inv cs H hok
  obtain ⟨_, hlen, _, _, _, _, _, _, hp, _⟩ := mkHeader_inv cs i grp H hmk
  rw [← hlen] at hp
  rw [hp]
  unfold hdrPoints
  rw [hpts, hw, hh]
  rfl

/-- Witness for C5: `WIDTH 4`, `HEIGHT 2`, no `POINTS` line → point count 8. -/
theorem C5_witness :
    parseHeader "VERSION .7\nWIDTH 4\nHEIGHT 2\nDATA ascii\n".data
      = Except.ok (PCDHeader.mk "ascii".data 39 [] none none [] (some (some 4))
          (some (some 2)) (some 8) [] (some 0)) ∧
    (PCDHeader.mk "ascii".data 39 [] none none [] (some (some 4)) (some (some 2))
      (some 8) [] (some 0) : PCDHeader).points = some (4 * 2) := by
  constructor
  · decide
  · exact C5_points_default "VERSION .7\nWIDTH 4\nHEIGHT 2\nDATA ascii\n".data
      (PCDHeader.mk "ascii".data 39 [] none none [] (some (some 4)) (some (some 2))
        (some 8) [] (some 0)) 4 2 (by decide) (by decide) (by decide) (by decide)

/-! ## Claim C7 -/

/-- C7 (amended): `headerByteLength` is `matchIndex + 7 + (DATA value
length)` — the byte offset immediately after the single whitespace
character that terminates the `DATA` line's match.  When the line ends in
a bare LF, that whitespace is the newline itself, so the payload begins
immediately after the newline, as the claim states; but when the line ends
in CRLF the matched whitespace is the CR, so `headerByteLength` points *at*
the LF — one byte before the position the claim prescribes (see
`C7_counterexample`). -/
theorem C7_headerLen (cs : List Char) (H : PCDHeader)
    (hok : parseHeader cs = Except.ok H) :
    ∃ i grp, searchData cs = some i ∧ dataMatchAt cs i = some grp ∧
      H.headerLen = i + 7 + grp.length ∧
      ∃ w, cs.get? (H.headerLen - 1) = some w ∧ isWS w = true := by
  obtain ⟨i, grp, hse, _, hdm, hmk⟩ := parseHeader_ok_inv cs H hok
  obtain ⟨_, hlen, _⟩ := mkHeader_inv cs i grp H hmk
  obtain ⟨_, _, w2, hw2, hws⟩ := dataMatchAt_some cs i grp hdm
  refine ⟨i, grp, hse, hdm, hlen, w2, ?_, hws⟩
  rw [hlen]
  have : i + 7 + grp.length - 1 = i + 6 + grp.length := by omega
  rw [this]
  exact hw2

/-- C7 counterexample: with CRLF line endings the computed
`headerByteLength` is the offset *of* the final LF (the match's trailing
`\s` consumed only the CR), not the offset immediately after it: for
`"P\r\nDATA ascii\r\nBODY"` the match starts at 2, the value token is
`ascii`, `headerByteLength = 14`, and byte 14 is the `\n` that terminates
the `DATA` line (the claim requires 15). -/
theorem C7_counterexample :
    Except.map (fun H => H.headerLen) (parseHeader "P\r\nDATA ascii\r\nBODY".data)
      = Except.ok 14 ∧
    "P\r\nDATA ascii\r\nBODY".data.get? 14 = some '\n' := by
  constructor
  · decide
  · decide

/-- Witness for C7: an LF-terminated `DATA` line; the match starts at 1,
the value token is `ascii`, `headerByteLength = 13` and the terminating
whitespace is the newline at byte 12. -/
theorem C7_witness :
    ∃ i grp, searchData "X\nDATA ascii\n1 2 3".data = some i ∧
      dataMatchAt "X\nDATA ascii\n1 2 3".data i = some grp ∧
      (13 : Nat) = i + 7 + grp.length ∧
      ∃ w, "X\nDATA ascii\n1 2 3".data.get? (13 - 1) = some w ∧ isWS w = true := by
  have h := C7_headerLen "X\nDATA ascii\n1 2 3".data
    (PCDHeader.mk "ascii".data 13 [] none none [] none none (some 0) [] (some 0))
    (by decide)
  exact h

/-! ## Claim C10 -/

/-- C10: a `DATA` line is recognised only when a CR or LF immediately
precedes the keyword (second conjunct), and when no position of the decoded
text matches the pattern — in particular when the `DATA` line is the very
first line of the text, unpreceded by any CR/LF — `parse` aborts with an
error rather than returning a point cloud (first conjunct). -/
theorem C10_data_first_line_fails :
    (∀ (bytes : List Nat) (le : Bool),
      (∀ i, i < (bytesToChars bytes).length → dataMatchAt (bytesToChars bytes) i = none) →
      ∃ e, parse bytes le = Except.error e) ∧
    (∀ (cs : List Char) (i : Nat) (grp : List Char), dataMatchAt cs i = some grp →
      ∃ c0, cs.get? i = some c0 ∧ isCRLF c0 = true) := by
  constructor
  · intro bytes le hall
    have hsd : searchData (bytesToChars bytes) = none := by
      unfold searchData
      rw [List.find?_eq_none]
      intro i hi
      rw [List.mem_range] at hi
      simp [hall i hi]
    have hph : parseHeader (bytesToChars bytes) = Except.error "TypeError" := by
      unfold parseHeader
      rw [hsd]
    refine ⟨"TypeError", ?_⟩
    simp only [parse]
    rw [hph]
    rfl
  · intro cs i grp h
    exact (dataMatchAt_some cs i grp h).1

def strBytes (s : String) : List Nat := s.data.map Char.toNat

/-- Witness for C10: a buffer whose `DATA` line is the very first line. -/
theorem C10_witness :
    (∀ i, i < (bytesToChars (strBytes "DATA ascii\n1 2 3\n")).length →
      dataMatchAt (bytesToChars (strBytes "DATA ascii\n1 2 3\n")) i = none) ∧
    ∃ e, parse (strBytes "DATA ascii\n1 2 3\n") true = Except.error e := by
  have hall : ∀ i, i < (bytesToChars (strBytes "DATA ascii\n1 2 3\n")).length →
      dataMatchAt (bytesToChars (strBytes "DATA ascii\n1 2 3\n")) i = none := by decide
  exact ⟨hall, C10_data_first_line_fails.1 (strBytes "DATA ascii\n1 2 3\n") true hall⟩

/-! ## Claim C9 -/

/-- C9: the ascii input with header `FIELDS x y z`, `SIZE 4 4 4`,
`TYPE F F F`, `DATA ascii` and body lines `1 2 3` and `4 5 6` decodes to
positions `[1, 2, 3, 4, 5, 6]` and no other output arrays (the empty final
line produced by the trailing newline is skipped). -/
theorem C9_ascii_example :
    parse (strBytes "FIELDS x y z\nSIZE 4 4 4\nTYPE F F F\nDATA ascii\n1 2 3\n4 5 6\n") true
      = Except.ok (PCDResult.mk
          (some [some 1, some 2, some 3, some 4, some 5, some 6]) none none none none) := by
  decide

/-! ## Claim C6 -/

/-- Partial sums `Σ_{t < n} size[i+t] * count[i+t]`. -/
def sumSC (szs cnts : List Int) (i n : Nat) : Int :=
  ((List.range n).map (fun t => szs.getD (i + t) 0 * cnts.getD (i + t) 0)).sum

theorem sumSC_zero (szs cnts : List Int) (i : Nat) : sumSC szs cnts i 0 = 0 := rfl

theorem sumSC_succ (szs cnts : List Int) (i n : Nat) :
    sumSC szs cnts i (n + 1)
      = szs.getD i 0 * cnts.getD i 0 + sumSC szs cnts (i + 1) n := by
  unfold sumSC
  rw [List.range_succ_eq_map]
  simp only [List.map_cons, List.sum_cons, Nat.add_zero, List.map_map]
  congr 2
  apply List.map_congr_left
  intro t _
  simp only [Function.comp_apply]
  have e : i + Nat.succ t = i + 1 + t := by omega
  rw [e]

theorem olookup_cons_self (f : List Char) (v : JSInt) (acc : List (List Char × JSInt)) :
    olookup ((f, v) :: acc) f = some v := by
  simp [olookup, List.find?]

theorem olookup_cons_ne (f key : List Char) (v : JSInt) (acc : List (List Char × JSInt))
    (h : key ≠ f) : olookup ((f, v) :: acc) key = olookup acc key := by
  have hb : (f == key) = false := by
    rw [beq_eq_false_iff_ne]
    exact fun e => h e.symm
  simp [olookup, List.find?, hb]

/-- Characterisation of the non-ascii offset loop when `SIZE` and `COUNT`
parsed to integer lists: every field's stored offset is the cumulative
`size*count` sum of the preceding fields, and the final `sizeSum` is the
grand total. -/
theorem offsetLoop_nonascii (szs cnts : List Int) :
    ∀ (fs : List (List Char)) (i : Nat) (base : Int) (acc : List (List Char × JSInt))
      (offs : List (List Char × JSInt)) (rowSize : JSInt),
      offsetLoop false (some (szs.map some)) (cnts.map some) fs i (some base) acc
        = Except.ok (offs, rowSize) →
      i + fs.length ≤ szs.length →
      i + fs.length ≤ cnts.length →
      rowSize = some (base + sumSC szs cnts i fs.length) ∧
      (∀ k, k < fs.length → fs.getD k [] ∉ fs.drop (k + 1) →
        olookup offs (fs.getD k []) = some (some (base + sumSC szs cnts i k))) ∧
      (∀ key, key ∉ fs → olookup offs key = olookup acc key) := by
  intro fs
  induction fs with
  | nil =>
    intro i base acc offs rowSize hok _ _
    unfold offsetLoop at hok
    cases hok
    refine ⟨by simp [sumSC_zero], ?_, ?_⟩
    · intro k hk; simp at hk
    · intro key _; rfl
  | cons f fs ih =>
    intro i base acc offs rowSize hok hl1 hl2
    unfold offsetLoop at hok
    simp only [Bool.false_eq_true, if_false] at hok
    have hszget : (szs.map some).get? i = some (some (szs.getD i 0)) := by
      have hi : i < szs.length := by simp at hl1; omega
      rw [List.get?_eq_getElem?, List.getElem?_map, List.getElem?_eq_getElem hi]
      simp [List.getD_eq_getElem?_getD, List.getElem?_eq_getElem hi]
    have hcntget : (cnts.map some).get? i = some (some (cnts.getD i 0)) := by
      have hi : i < cnts.length := by simp at hl2; omega
      rw [List.get?_eq_getElem?, List.getElem?_map, List.getElem?_eq_getElem hi]
      simp [List.getD_eq_getElem?_getD, List.getElem?_eq_getElem hi]
    rw [hszget, hcntget] at hok
    simp only [undef2nan, Option.getD_some, jmul, jadd] at hok
    have := ih (i + 1) (base + szs.getD i 0 * cnts.getD i 0) ((f, some base) :: acc)
      offs rowSize hok (by simp at hl1 ⊢; omega) (by simp at hl2 ⊢; omega)
    obtain ⟨hrow, hlook, hpres⟩ := this
    refine ⟨?_, ?_, ?_⟩
    · rw [hrow]
      simp only [List.length_cons]
      rw [sumSC_succ]
      congr 1
      ring
    · intro k hk hnot
      cases k with
      | zero =>
        have hf : f ∉ fs := by simpa using hnot
        rw [show (f :: fs).getD 0 [] = f from rfl]
        rw [hpres f hf, olookup_cons_self, sumSC_zero]
        rw [show base + 0 = base from by ring]
      | succ t =>
        have h1 : (f :: fs).getD (t + 1) [] = fs.getD t [] := rfl
        rw [h1]
        have h2 := hlook t (by simp at hk; omega) (by simpa using hnot)
        rw [h2, sumSC_succ]
        rw [show base + (szs.getD i 0 * cnts.getD i 0 + sumSC szs cnts (i + 1) t)
          = base + szs.getD i 0 * cnts.getD i 0 + sumSC szs cnts (i + 1) t from by ring]
    · intro key hkey
      have hk1 : key ∉ fs := fun h => hkey (List.mem_cons_of_mem _ h)
      have hk2 : key ≠ f := fun h => hkey (h ▸ List.mem_cons_self _ _)
      rw [hpres key hk1, olookup_cons_ne _ _ _ _ hk2]

/-- Characterisation of the ascii offset loop: every field's stored offset
is its 0-based column index. -/
theorem offsetLoop_ascii (size : Option (List JSInt)) (count : List JSInt) :
    ∀ (fs : List (List Char)) (i : Nat) (sizeSum : JSInt)
      (acc offs : List (List Char × JSInt)) (rowSize : JSInt),
      offsetLoop true size count fs i sizeSum acc = Except.ok (offs, rowSize) →
      rowSize = sizeSum ∧
      (∀ k, k < fs.length → fs.getD k [] ∉ fs.drop (k + 1) →
        olookup offs (fs.getD k []) = some (some ((i + k : Nat) : Int))) ∧
      (∀ key, key ∉ fs → olookup offs key = olookup acc key) := by
  intro fs
  induction fs with
  | nil =>
    intro i sizeSum acc offs rowSize hok
    unfold offsetLoop at hok
    cases hok
    refine ⟨rfl, ?_, ?_⟩
    · intro k hk; simp at hk
    · intro key _; rfl
  | cons f fs ih =>
    intro i sizeSum acc offs rowSize hok
    unfold offsetLoop at hok
    simp only [if_true] at hok
    have := ih (i + 1) sizeSum ((f, some (i : Int)) :: acc) offs rowSize hok
    obtain ⟨hrow, hlook, hpres⟩ := this
    refine ⟨hrow, ?_, ?_⟩
    · intro k hk hnot
      cases k with
      | zero =>
        have hf : f ∉ fs := by simpa using hnot
        rw [show (f :: fs).getD 0 [] = f from rfl]
        rw [hpres f hf, olookup_cons_self]
        simp
      | succ t =>
        have h1 : (f :: fs).getD (t + 1) [] = fs.getD t [] := rfl
        rw [h1]
        have h2 := hlook t (by simp at hk; omega) (by simpa using hnot)
        rw [h2]
        rw [show i + 1 + t = i + (t + 1) from by omega]
    · intro key hkey
      have hk1 : key ∉ fs := fun h => hkey (List.mem_cons_of_mem _ h)
      have hk2 : key ≠ f := fun h => hkey (h ▸ List.mem_cons_self _ _)
      rw [hpres key hk1, olookup_cons_ne _ _ _ _ hk2]

theorem nodup_getD_not_mem_drop (l : List (List Char)) (hl : l.Nodup) (k : Nat)
    (hk : k < l.length) : l.getD k [] ∉ l.drop (k + 1) := by
  intro hmem
  obtain ⟨j, hj, hval⟩ := List.getElem_of_mem hmem
  rw [List.getElem_drop] at hval
  have hjl : k + 1 + j < l.length := by
    have := hj
    simp only [List.length_drop] at this
    omega
  have hgd : l.getD k [] = l[k] := by
    rw [List.getD_eq_getElem?_getD, List.getElem?_eq_getElem hk]
    rfl
  rw [hgd] at hval
  have hinj := List.nodup_iff_injective_getElem.mp hl
  have heq : (⟨k + 1 + j, hjl⟩ : Fin l.length) = ⟨k, hk⟩ := by
    apply hinj
    simpa using hval
  have : k + 1 + j = k := congrArg Fin.val heq
  omega

/-- C6: in a successfully parsed header whose field names are distinct and
whose `SIZE`/`COUNT` entries parsed to integer lists covering the fields
(the spec's equal-length invariant, with `COUNT` defaulting to all ones),
a non-ascii encoding gives every field the byte offset
`Σ size[g]*count[g]` over the preceding fields `g` and makes `rowSize` the
grand total, while the ascii encoding gives every field its 0-based column
index. -/
theorem C6_field_offsets (cs : List Char) (H : PCDHeader) (szs cnts : List Int)
    (hok : parseHeader cs = Except.ok H)
    (hnd : H.fields.Nodup)
    (hsz : H.size = some (szs.map some))
    (hcnt : H.count = cnts.map some)
    (hl1 : H.fields.length ≤ szs.length)
    (hl2 : H.fields.length ≤ cnts.length) :
    (H.data ≠ "ascii".data →
      (∀ k, k < H.fields.length →
        olookup H.offset (H.fields.getD k []) = some (some (sumSC szs cnts 0 k))) ∧
      H.rowSize = some (sumSC szs cnts 0 H.fields.length)) ∧
    (H.data = "ascii".data →
      ∀ k, k < H.fields.length →
        olookup H.offset (H.fields.getD k []) = some (some (k : Int))) := by
  obtain ⟨i, grp, _, _, _, hmk⟩ := parseHeader_ok_inv cs H hok
  obtain ⟨hdata, _, _, _, _, _, _, _, _, hloop⟩ := mkHeader_inv cs i grp H hmk
  constructor
  · intro hne
    have hb : (grp == "ascii".data) = false := by
      rw [beq_eq_false_iff_ne]
      rw [← hdata]
      exact hne
    rw [hb, hsz, hcnt] at hloop
    have hmain := offsetLoop_nonascii szs cnts H.fields 0 0 [] H.offset H.rowSize hloop
      (by omega) (by omega)
    obtain ⟨hrow, hlook, _⟩ := hmain
    constructor
    · intro k hk
      have h2 := hlook k hk (nodup_getD_not_mem_drop H.fields hnd k hk)
      rw [h2]
      norm_num
    · rw [hrow]
      norm_num
  · intro he
    have hb : (grp == "ascii".data) = true := by
      rw [beq_iff_eq, ← hdata]
      exact he
    rw [hb] at hloop
    have hmain := offsetLoop_ascii H.size H.count H.fields 0 (some 0) [] H.offset H.rowSize hloop
    obtain ⟨_, hlook, _⟩ := hmain
    intro k hk
    have h2 := hlook k hk (nodup_getD_not_mem_drop H.fields hnd k hk)
    rw [h2]
    norm_num

/-- The header of the C6 witness input. -/
def c6hdr : PCDHeader :=
  PCDHeader.mk "binary".data 48 ["x".data, "y".data, "z".data]
    (some [some 4, some 8, some 2]) none [some 1, some 2, some 1] none none (some 0)
    [("z".data, some 20), ("y".data, some 4), ("x".data, some 0)] (some 22)

/-- Witness for C6: `FIELDS x y z`, `SIZE 4 8 2`, `COUNT 1 2 1`, binary
encoding — `y` sits at byte offset 4 = 4*1, `z` at 20 = 4*1 + 8*2, and the
row stride is 22. -/
theorem C6_witness :
    olookup c6hdr.offset (c6hdr.fields.getD 1 []) = some (some (sumSC [4, 8, 2] [1, 2, 1] 0 1)) ∧
    olookup c6hdr.offset (c6hdr.fields.getD 2 []) = some (some (sumSC [4, 8, 2] [1, 2, 1] 0 2)) ∧
    c6hdr.rowSize = some (sumSC [4, 8, 2] [1, 2, 1] 0 c6hdr.fields.length) := by
  have h := C6_field_offsets "FIELDS x y z\nSIZE 4 8 2\nCOUNT 1 2 1\nDATA binary\n".data
    c6hdr [4, 8, 2] [1, 2, 1] (by decide) (by decide) (by decide) (by decide)
    (by decide) (by decide)
  have hne : c6hdr.data ≠ "ascii".data := by decide
  exact ⟨(h.1 hne).1 1 (by decide), (h.1 hne).1 2 (by decide), (h.1 hne).2⟩

/-! ## Infrastructure for the body-decoder claims -/

theorem except_bind_ok {α β : Type} (m : Except String α) (f : α → Except String β) (b : β) :
    (m >>= f) = Except.ok b ↔ ∃ a, m = Except.ok a ∧ f a = Except.ok b := by
  cases m with
  | error e =>
    constructor
    · intro h; exact absurd h (by simp [Bind.bind, Except.bind])
    · rintro ⟨a, ha, _⟩; exact absurd ha (by simp)
  | ok a =>
    constructor
    · intro h; exact ⟨a, rfl, by simpa [Bind.bind, Except.bind] using h⟩
    · rintro ⟨a', ha, hf⟩
      cases ha
      simpa [Bind.bind, Except.bind] using hf

theorem exMapM_ok {α : Type} (f : α → Except String Arrays) :
    ∀ (l : List α) (as : List Arrays), exMapM f l = Except.ok as →
      as.length = l.length ∧
      ∀ i (hi : i < l.length), ∃ a, as.get? i = some a ∧ f (l.get ⟨i, hi⟩) = Except.ok a := by
  intro l
  induction l with
  | nil =>
    intro as h
    unfold exMapM at h
    cases h
    exact ⟨rfl, fun i hi => absurd hi (by simp)⟩
  | cons x xs ih =>
    intro as h
    unfold exMapM at h
    rw [except_bind_ok] at h
    obtain ⟨a, ha, h⟩ := h
    rw [except_bind_ok] at h
    obtain ⟨r, hr, h⟩ := h
    cases h
    obtain ⟨hlen, hidx⟩ := ih r hr
    refine ⟨by simp [hlen], ?_⟩
    intro i hi
    cases i with
    | zero => exact ⟨a, rfl, ha⟩
    | succ j =>
      obtain ⟨b, hb, hfb⟩ := hidx j (by simp at hi; omega)
      exact ⟨b, hb, hfb⟩

theorem concatArrays_position (l : List Arrays) :
    (concatArrays l).position = (l.map Arrays.position).flatten := by
  induction l with
  | nil => rfl
  | cons a l ih =>
    show a.position ++ (concatArrays l).position
      = a.position ++ (l.map Arrays.position).flatten
    rw [ih]

theorem concatArrays_normal (l : List Arrays) :
    (concatArrays l).normal = (l.map Arrays.normal).flatten := by
  induction l with
  | nil => rfl
  | cons a l ih =>
    show a.normal ++ (concatArrays l).normal = a.normal ++ (l.map Arrays.normal).flatten
    rw [ih]

theorem concatArrays_color (l : List Arrays) :
    (concatArrays l).color = (l.map Arrays.color).flatten := by
  induction l with
  | nil => rfl
  | cons a l ih =>
    show a.color ++ (concatArrays l).color = a.color ++ (l.map Arrays.color).flatten
    rw [ih]

theorem concatArrays_intensity (l : List Arrays) :
    (concatArrays l).intensity = (l.map Arrays.intensity).flatten := by
  induction l with
  | nil => rfl
  | cons a l ih =>
    show a.intensity ++ (concatArrays l).intensity
      = a.intensity ++ (l.map Arrays.intensity).flatten
    rw [ih]

theorem concatArrays_label (l : List Arrays) :
    (concatArrays l).label = (l.map Arrays.label).flatten := by
  induction l with
  | nil => rfl
  | cons a l ih =>
    show a.label ++ (concatArrays l).label = a.label ++ (l.map Arrays.label).flatten
    rw [ih]

theorem flatten_length_uniform {α : Type} :
    ∀ (ls : List (List α)) (k : Nat), (∀ l ∈ ls, l.length = k) →
      ls.flatten.length = k * ls.length := by
  intro ls
  induction ls with
  | nil => intro k _; simp
  | cons l ls ih =>
    intro k h
    have h1 : l.length = k := h l (by simp)
    have h2 := ih k (fun m hm => h m (by simp [hm]))
    simp only [List.flatten_cons, List.length_append, h1, h2, List.length_cons]
    ring

theorem flatten_uniform_get? {α : Type} :
    ∀ (ls : List (List α)) (k : Nat), (∀ l ∈ ls, l.length = k) →
      ∀ (i r : Nat), i < ls.length → r < k →
        ls.flatten.get? (k * i + r) = (ls.getD i []).get? r := by
  intro ls
  induction ls with
  | nil => intro k _ i r hi _; simp at hi
  | cons l ls ih =>
    intro k h i r hi hr
    have h1 : l.length = k := h l (by simp)
    cases i with
    | zero =>
      simp only [List.flatten_cons, Nat.mul_zero, Nat.zero_add]
      rw [List.get?_eq_getElem?, List.getElem?_append_left (by omega), ← List.get?_eq_getElem?]
      rfl
    | succ j =>
      simp only [List.flatten_cons]
      have e1 : k * (j + 1) + r = l.length + (k * j + r) := by rw [h1]; ring
      rw [e1, List.get?_eq_getElem?, List.getElem?_append_right (by omega)]
      have e2 : l.length + (k * j + r) - l.length = k * j + r := by omega
      rw [e2, ← List.get?_eq_getElem?]
      have hrec := ih k (fun m hm => h m (by simp [hm])) j r (by simp at hi; omega) hr
      rw [hrec]
      rfl

/-! ### Shape of the per-point group readers -/

theorem cpPos_shape (H : PCDHeader) (dec : List Nat) (le : Bool) (i : Nat) (l : List JSNum)
    (h : cpPos H dec le i = Except.ok l) :
    l.length = if (olookup H.offset "x".data).isSome then 3 else 0 := by
  unfold cpPos at h
  cases hx : olookup H.offset "x".data with
  | none => rw [hx] at h; cases h; simp [hx]
  | some ox =>
    rw [hx] at h
    simp only at h
    rw [except_bind_ok] at h; obtain ⟨sx, _, h⟩ := h
    rw [except_bind_ok] at h; obtain ⟨sy, _, h⟩ := h
    rw [except_bind_ok] at h; obtain ⟨sz, _, h⟩ := h
    rw [except_bind_ok] at h; obtain ⟨ax, _, h⟩ := h
    rw [except_bind_ok] at h; obtain ⟨ay, _, h⟩ := h
    rw [except_bind_ok] at h; obtain ⟨az, _, h⟩ := h
    rw [except_bind_ok] at h; obtain ⟨vx, _, h⟩ := h
    rw [except_bind_ok] at h; obtain ⟨vy, _, h⟩ := h
    rw [except_bind_ok] at h; obtain ⟨vz, _, h⟩ := h
    cases h
    simp [hx]

theorem cpCol_shape (H : PCDHeader) (dec : List Nat) (i : Nat) (l : List ℚ)
    (h : cpCol H dec i = Except.ok l) :
    l.length = if (olookup H.offset "rgb".data).isSome then 3 else 0 := by
  unfold cpCol at h
  cases hx : olookup H.offset "rgb".data with
  | none => rw [hx] at h; cases h; simp [hx]
  | some orgb =>
    rw [hx] at h
    simp only at h
    rw [except_bind_ok] at h; obtain ⟨s1, _, h⟩ := h
    rw [except_bind_ok] at h; obtain ⟨a1, _, h⟩ := h
    rw [except_bind_ok] at h; obtain ⟨a2, _, h⟩ := h
    rw [except_bind_ok] at h; obtain ⟨a3, _, h⟩ := h
    rw [except_bind_ok] at h; obtain ⟨r, _, h⟩ := h
    rw [except_bind_ok] at h; obtain ⟨g, _, h⟩ := h
    rw [except_bind_ok] at h; obtain ⟨b, _, h⟩ := h
    cases h
    simp [hx]

theorem cpNor_shape (H : PCDHeader) (dec : List Nat) (le : Bool) (i : Nat) (l : List JSNum)
    (h : cpNor H dec le i = Except.ok l) :
    l.length = if (olookup H.offset "normal_x".data).isSome then 3 else 0 := by
  unfold cpNor at h
  cases hx : olookup H.offset "normal_x".data with
  | none => rw [hx] at h; cases h; simp [hx]
  | some onx =>
    rw [hx] at h
    simp only at h
    rw [except_bind_ok] at h; obtain ⟨sx, _, h⟩ := h
    rw [except_bind_ok] at h; obtain ⟨sy, _, h⟩ := h
    rw [except_bind_ok] at h; obtain ⟨sz, _, h⟩ := h
    rw [except_bind_ok] at h; obtain ⟨ax, _, h⟩ := h
    rw [except_bind_ok] at h; obtain ⟨ay, _, h⟩ := h
    rw [except_bind_ok] at h; obtain ⟨az, _, h⟩ := h
    rw [except_bind_ok] at h; obtain ⟨vx, _, h⟩ := h
    rw [except_bind_ok] at h; obtain ⟨vy, _, h⟩ := h
    rw [except_bind_ok] at h; obtain ⟨vz, _, h⟩ := h
    cases h
    simp [hx]

theorem cpInt_shape (H : PCDHeader) (dec : List Nat) (le : Bool) (i : Nat) (l : List JSNum)
    (h : cpInt H dec le i = Except.ok l) :
    l.length = if (olookup H.offset "intensity".data).isSome then 1 else 0 := by
  unfold cpInt at h
  cases hx : olookup H.offset "intensity".data with
  | none => rw [hx] at h; cases h; simp [hx]
  | some oi =>
    rw [hx] at h
    simp only at h
    rw [except_bind_ok] at h; obtain ⟨si, _, h⟩ := h
    rw [except_bind_ok] at h; obtain ⟨ai, _, h⟩ := h
    rw [except_bind_ok] at h; obtain ⟨vi, _, h⟩ := h
    cases h
    simp [hx]

theorem cpLab_shape (H : PCDHeader) (dec : List Nat) (le : Bool) (i : Nat) (l : List JSInt)
    (h : cpLab H dec le i = Except.ok l) :
    l.length = if (olookup H.offset "label".data).isSome then 1 else 0 := by
  unfold cpLab at h
  cases hx : olookup H.offset "label".data with
  | none => rw [hx] at h; cases h; simp [hx]
  | some ol =>
    rw [hx] at h
    simp only at h
    rw [except_bind_ok] at h; obtain ⟨sl, _, h⟩ := h
    rw [except_bind_ok] at h; obtain ⟨al, _, h⟩ := h
    rw [except_bind_ok] at h; obtain ⟨vl, _, h⟩ := h
    cases h
    simp [hx]

theorem bpPos_shape (H : PCDHeader) (view : List Nat) (le : Bool) (i : Nat) (l : List JSNum)
    (h : bpPos H view le i = Except.ok l) :
    l.length = if (olookup H.offset "x".data).isSome then 3 else 0 := by
  unfold bpPos at h
  cases hx : olookup H.offset "x".data with
  | none => rw [hx] at h; cases h; simp [hx]
  | some ox =>
    rw [hx] at h
    simp only at h
    rw [except_bind_ok] at h; obtain ⟨ax, _, h⟩ := h
    rw [except_bind_ok] at h; obtain ⟨ay, _, h⟩ := h
    rw [except_bind_ok] at h; obtain ⟨az, _, h⟩ := h
    rw [except_bind_ok] at h; obtain ⟨vx, _, h⟩ := h
    rw [except_bind_ok] at h; obtain ⟨vy, _, h⟩ := h
    rw [except_bind_ok] at h; obtain ⟨vz, _, h⟩ := h
    cases h
    simp [hx]

theorem bpCol_shape (H : PCDHeader) (view : List Nat) (i : Nat) (l : List ℚ)
    (h : bpCol H view i = Except.ok l) :
    l.length = if (olookup H.offset "rgb".data).isSome then 3 else 0 := by
  unfold bpCol at h
  cases hx : olookup H.offset "rgb".data with
  | none => rw [hx] at h; cases h; simp [hx]
  | some orgb =>
    rw [hx] at h
    simp only at h
    rw [except_bind_ok] at h; obtain ⟨a1, _, h⟩ := h
    rw [except_bind_ok] at h; obtain ⟨a2, _, h⟩ := h
    rw [except_bind_ok] at h; obtain ⟨a3, _, h⟩ := h
    rw [except_bind_ok] at h; obtain ⟨r, _, h⟩ := h
    rw [except_bind_ok] at h; obtain ⟨g, _, h⟩ := h
    rw [except_bind_ok] at h; obtain ⟨b, _, h⟩ := h
    cases h
    simp [hx]

theorem bpNor_shape (H : PCDHeader) (view : List Nat) (le : Bool) (i : Nat) (l : List JSNum)
    (h : bpNor H view le i = Except.ok l) :
    l.length = if (olookup H.offset "normal_x".data).isSome then 3 else 0 := by
  unfold bpNor at h
  cases hx : olookup H.offset "normal_x".data with
  | none => rw [hx] at h; cases h; simp [hx]
  | some onx =>
    rw [hx] at h
    simp only at h
    rw [except_bind_ok] at h; obtain ⟨ax, _, h⟩ := h
    rw [except_bind_ok] at h; obtain ⟨ay, _, h⟩ := h
    rw [except_bind_ok] at h; obtain ⟨az, _, h⟩ := h
    rw [except_bind_ok] at h; obtain ⟨vx, _, h⟩ := h
    rw [except_bind_ok] at h; obtain ⟨vy, _, h⟩ := h
    rw [except_bind_ok] at h; obtain ⟨vz, _, h⟩ := h
    cases h
    simp [hx]

theorem bpInt_shape (H : PCDHeader) (view : List Nat) (le : Bool) (i : Nat) (l : List JSNum)
    (h : bpInt H view le i = Except.ok l) :
    l.length = if (olookup H.offset "intensity".data).isSome then 1 else 0 := by
  unfold bpInt at h
  cases hx : olookup H.offset "intensity".data with
  | none => rw [hx] at h; cases h; simp [hx]
  | some oi =>
    rw [hx] at h
    simp only at h
    rw [except_bind_ok] at h; obtain ⟨ai, _, h⟩ := h
    rw [except_bind_ok] at h; obtain ⟨vi, _, h⟩ := h
    cases h
    simp [hx]

theorem bpLab_shape (H : PCDHeader) (view : List Nat) (le : Bool) (i : Nat) (l : List JSInt)
    (h : bpLab H view le i = Except.ok l) :
    l.length = if (olookup H.offset "label".data).isSome then 1 else 0 := by
  unfold bpLab at h
  cases hx : olookup H.offset "label".data with
  | none => rw [hx] at h; cases h; simp [hx]
  | some ol =>
    rw [hx] at h
    simp only at h
    rw [except_bind_ok] at h; obtain ⟨al, _, h⟩ := h
    rw [except_bind_ok] at h; obtain ⟨vl, _, h⟩ := h
    cases h
    simp [hx]

theorem arPos_shape (H : PCDHeader) (tokens : List (List Char)) :
    (arPos H tokens).length = if (olookup H.offset "x".data).isSome then 3 else 0 := by
  unfold arPos
  cases hx : olookup H.offset "x".data <;> simp

theorem arNor_shape (H : PCDHeader) (tokens : List (List Char)) :
    (arNor H tokens).length
      = if (olookup H.offset "normal_x".data).isSome then 3 else 0 := by
  unfold arNor
  cases hx : olookup H.offset "normal_x".data <;> simp

theorem arInt_shape (H : PCDHeader) (tokens : List (List Char)) :
    (arInt H tokens).length
      = if (olookup H.offset "intensity".data).isSome then 1 else 0 := by
  unfold arInt
  cases hx : olookup H.offset "intensity".data <;> simp

theorem arLab_shape (H : PCDHeader) (tokens : List (List Char)) :
    (arLab H tokens).length = if (olookup H.offset "label".data).isSome then 1 else 0 := by
  unfold arLab
  cases hx : olookup H.offset "label".data <;> simp

theorem arCol_shape (H : PCDHeader) (tokens : List (List Char)) (l : List ℚ)
    (h : arCol H tokens = Except.ok l) :
    l.length = if (olookup H.offset "rgb".data).isSome then 3 else 0 := by
  unfold arCol at h
  cases hx : olookup H.offset "rgb".data with
  | none => rw [hx] at h; cases h; simp [hx]
  | some orgb =>
    rw [hx] at h
    cases ht : H.typ with
    | none => rw [ht] at h; exact absurd h (by simp)
    | some ts =>
      rw [ht] at h
      simp only at h
      cases h
      simp [hx, rgbChannels]

/-! ### Byte addresses of `binary_compressed` fields (claim C4) -/

theorem toIndex_nat (v : Nat) : toIndex (some ((v : Nat) : Int)) = Except.ok v := by
  simp [toIndex]

theorem toIndex_addr (P O S I : Nat) :
    toIndex (jadd (jmul (some (P : Int)) (some (O : Int)))
      (jmul (some (S : Int)) (some (I : Int)))) = Except.ok (P * O + S * I) := by
  have e : ((P : Int)) * O + (S : Int) * I = ((P * O + S * I : Nat) : Int) := by
    push_cast; ring
  simp only [jmul, jadd]
  rw [e]
  exact toIndex_nat _

theorem cpPos_addr (H : PCDHeader) (dec : List Nat) (le : Bool) (i : Nat)
    (p ox oy oz sx sy sz : Nat) (l : List JSNum)
    (hp : H.points = some (p : Int))
    (hx : olookup H.offset "x".data = some (some (ox : Int)))
    (hy : olookup H.offset "y".data = some (some (oy : Int)))
    (hz : olookup H.offset "z".data = some (some (oz : Int)))
    (hsx : sizeAt H.size (fieldIdx H "x".data) = Except.ok (some (sx : Int)))
    (hsy : sizeAt H.size (fieldIdx H "y".data) = Except.ok (some (sy : Int)))
    (hsz : sizeAt H.size (fieldIdx H "z".data) = Except.ok (some (sz : Int)))
    (h : cpPos H dec le i = Except.ok l) :
    ∃ vx vy vz,
      readF32 dec (p * ox + sx * i) le = Except.ok vx ∧
      readF32 dec (p * oy + sy * i) le = Except.ok vy ∧
      readF32 dec (p * oz + sz * i) le = Except.ok vz ∧
      l = [vx, vy, vz] := by
  unfold cpPos at h
  rw [hx] at h
  simp only at h
  rw [except_bind_ok] at h; obtain ⟨sx', hsx', h⟩ := h
  rw [hsx] at hsx'; injection hsx' with e; subst e
  rw [except_bind_ok] at h; obtain ⟨sy', hsy', h⟩ := h
  rw [hsy] at hsy'; injection hsy' with e; subst e
  rw [except_bind_ok] at h; obtain ⟨sz', hsz', h⟩ := h
  rw [hsz] at hsz'; injection hsz' with e; subst e
  rw [except_bind_ok] at h; obtain ⟨ax, hax, h⟩ := h
  rw [hp, toIndex_addr] at hax
  injection hax with e; subst e
  rw [except_bind_ok] at h; obtain ⟨ay, hay, h⟩ := h
  rw [hp, hy] at hay
  simp only [undef2nan, Option.getD] at hay
  rw [toIndex_addr] at hay
  injection hay with e; subst e
  rw [except_bind_ok] at h; obtain ⟨az, haz, h⟩ := h
  rw [hp, hz] at haz
  simp only [undef2nan, Option.getD] at haz
  rw [toIndex_addr] at haz
  injection haz with e; subst e
  rw [except_bind_ok] at h; obtain ⟨vx, hvx, h⟩ := h
  rw [except_bind_ok] at h; obtain ⟨vy, hvy, h⟩ := h
  rw [except_bind_ok] at h; obtain ⟨vz, hvz, h⟩ := h
  injection h with h
  exact ⟨vx, vy, vz, hvx, hvy, hvz, h.symm⟩

theorem cpInt_addr (H : PCDHeader) (dec : List Nat) (le : Bool) (i : Nat)
    (p oi si : Nat) (l : List JSNum)
    (hp : H.points = some (p : Int))
    (hoi : olookup H.offset "intensity".data = some (some (oi : Int)))
    (hsi : sizeAt H.size (fieldIdx H "intensity".data) = Except.ok (some (si : Int)))
    (h : cpInt H dec le i = Except.ok l) :
    ∃ vi, readF32 dec (p * oi + si * i) le = Except.ok vi ∧ l = [vi] := by
  unfold cpInt at h
  rw [hoi] at h
  simp only at h
  rw [except_bind_ok] at h; obtain ⟨si', hsi', h⟩ := h
  rw [hsi] at hsi'; injection hsi' with e; subst e
  rw [except_bind_ok] at h; obtain ⟨ai, hai, h⟩ := h
  rw [hp, toIndex_addr] at hai
  injection hai with e; subst e
  rw [except_bind_ok] at h; obtain ⟨vi, hvi, h⟩ := h
  injection h with h
  exact ⟨vi, hvi, h.symm⟩

theorem compressedPoint_inv (H : PCDHeader) (dec : List Nat) (le : Bool) (i : Nat)
    (a : Arrays) (h : compressedPoint H dec le i = Except.ok a) :
    ∃ pos col nor intens lab,
      cpPos H dec le i = Except.ok pos ∧ cpCol H dec i = Except.ok col ∧
      cpNor H dec le i = Except.ok nor ∧ cpInt H dec le i = Except.ok intens ∧
      cpLab H dec le i = Except.ok lab ∧ a = Arrays.mk pos nor col intens lab := by
  unfold compressedPoint at h
  rw [except_bind_ok] at h; obtain ⟨pos, h1, h⟩ := h
  rw [except_bind_ok] at h; obtain ⟨col, h2, h⟩ := h
  rw [except_bind_ok] at h; obtain ⟨nor, h3, h⟩ := h
  rw [except_bind_ok] at h; obtain ⟨intens, h4, h⟩ := h
  rw [except_bind_ok] at h; obtain ⟨lab, h5, h⟩ := h
  injection h with h
  exact ⟨pos, col, nor, intens, lab, h1, h2, h3, h4, h5, h.symm⟩

theorem list_getD_of_get? {α : Type} (l : List α) (n : Nat) (a d : α)
    (h : l.get? n = some a) : l.getD n d = a := by
  rw [List.get?_eq_getElem?] at h
  simp [List.getD, h]

/-- **C4.** `binary_compressed` column-major addressing: after the two u32
size prefixes are read from the 8 bytes following the header and the
compressed block is decompressed, the value of field `f` for point `i` is
read from the decompressed buffer at byte address
`points * offset[f] + size[f] * i` — proven here for the position fields
`x`,`y`,`z` and for `intensity`, the two array arities; the source uses the
identical index expression for every other recognized field.  With 2 points
all `x` values occupy the first contiguous block and all `y` values a later
one (addresses `p*ox`, `p*ox+sx`, then `p*oy`, `p*oy+sy`). -/
theorem C4_compressed_layout (H : PCDHeader) (bytes : List Nat) (le : Bool)
    (p ox oy oz sx sy sz : Nat) (A : Arrays)
    (hA : parseCompressedBody H bytes le = Except.ok A)
    (hp : H.points = some (p : Int))
    (hx : olookup H.offset "x".data = some (some (ox : Int)))
    (hy : olookup H.offset "y".data = some (some (oy : Int)))
    (hz : olookup H.offset "z".data = some (some (oz : Int)))
    (hsx : sizeAt H.size (fieldIdx H "x".data) = Except.ok (some (sx : Int)))
    (hsy : sizeAt H.size (fieldIdx H "y".data) = Except.ok (some (sy : Int)))
    (hsz : sizeAt H.size (fieldIdx H "z".data) = Except.ok (some (sz : Int))) :
    ∃ dec : List Nat,
      decompressLZF ((bytes.drop (H.headerLen + 8)).take
          ((bytes.drop H.headerLen).getD 0 0 + 256 * (bytes.drop H.headerLen).getD 1 0
            + 65536 * (bytes.drop H.headerLen).getD 2 0
            + 16777216 * (bytes.drop H.headerLen).getD 3 0))
          ((bytes.drop H.headerLen).getD 4 0 + 256 * (bytes.drop H.headerLen).getD 5 0
            + 65536 * (bytes.drop H.headerLen).getD 6 0
            + 16777216 * (bytes.drop H.headerLen).getD 7 0) = Except.ok dec ∧
      A.position.length = 3 * p ∧
      (∀ i, i < p → ∃ vx vy vz,
        readF32 dec (p * ox + sx * i) le = Except.ok vx ∧
        readF32 dec (p * oy + sy * i) le = Except.ok vy ∧
        readF32 dec (p * oz + sz * i) le = Except.ok vz ∧
        A.position.get? (3 * i) = some vx ∧
        A.position.get? (3 * i + 1) = some vy ∧
        A.position.get? (3 * i + 2) = some vz) ∧
      (∀ oi si : Nat, olookup H.offset "intensity".data = some (some (oi : Int)) →
        sizeAt H.size (fieldIdx H "intensity".data) = Except.ok (some (si : Int)) →
        ∀ i, i < p → ∃ vi, readF32 dec (p * oi + si * i) le = Except.ok vi ∧
          A.intensity.get? i = some vi) := by
  unfold parseCompressedBody at hA
  simp only [] at hA
  split at hA
  case _ s0 s1 s2 s3 t0 t1 t2 t3 h0 h1 h2 h3 h4 h5 h6 h7 =>
    split at hA
    · exact Except.noConfusion hA
    · rw [except_bind_ok] at hA; obtain ⟨dec, hdec, hA⟩ := hA
      rw [except_bind_ok] at hA; obtain ⟨as, has, hA⟩ := hA
      injection hA with hA
      subst hA
      have hpts : ptsNat H.points = p := by rw [hp]; simp [ptsNat]
      rw [hpts] at has
      obtain ⟨hlen, hidx⟩ := exMapM_ok (compressedPoint H dec le) (List.range p) as has
      have hlenp : as.length = p := by simpa using hlen
      have hrow : ∀ b ∈ as, b.position.length = 3 := by
        intro b hb
        obtain ⟨n, hn⟩ := List.mem_iff_get?.mp hb
        have hnlt : n < as.length := by
          rw [List.get?_eq_getElem?] at hn
          exact (List.getElem?_eq_some_iff.mp hn).1
        obtain ⟨a', ha', hca'⟩ := hidx n (by simpa [hlenp] using hnlt)
        rw [hn] at ha'; injection ha' with e
        subst e
        obtain ⟨pos, col, nor, intens, lab, h1, _, _, _, _, hmk⟩ :=
          compressedPoint_inv _ _ _ _ _ hca'
        rw [hmk]
        have := cpPos_shape _ _ _ _ _ h1
        rw [hx] at this
        simpa using this
      have huni : ∀ l ∈ as.map Arrays.position, l.length = 3 := by
        intro l hl
        obtain ⟨b, hb, rfl⟩ := List.mem_map.mp hl
        exact hrow b hb
      refine ⟨dec, ?_, ?_, ?_, ?_⟩
      · rw [list_getD_of_get? _ _ _ _ h0, list_getD_of_get? _ _ _ _ h1,
          list_getD_of_get? _ _ _ _ h2, list_getD_of_get? _ _ _ _ h3,
          list_getD_of_get? _ _ _ _ h4, list_getD_of_get? _ _ _ _ h5,
          list_getD_of_get? _ _ _ _ h6, list_getD_of_get? _ _ _ _ h7]
        exact hdec
      · rw [concatArrays_position, flatten_length_uniform _ 3 huni,
          List.length_map, hlenp]
      · intro i hip
        obtain ⟨a, ha, hca⟩ := hidx i (by simpa using hip)
        have hri : (List.range p).get ⟨i, by simpa using hip⟩ = i := by
          simp [List.get_range]
        rw [hri] at hca
        obtain ⟨pos, col, nor, intens, lab, hpos, _, _, _, _, hmk⟩ :=
          compressedPoint_inv _ _ _ _ _ hca
        obtain ⟨vx, vy, vz, hvx, hvy, hvz, hl⟩ :=
          cpPos_addr H dec le i p ox oy oz sx sy sz pos hp hx hy hz hsx hsy hsz hpos
        have hmap : (as.map Arrays.position).get? i = some pos := by
          rw [List.get?_map, ha, hmk, hl]
          rw [hl] at hmk
          rfl
        have hgd : (as.map Arrays.position).getD i [] = pos :=
          list_getD_of_get? _ _ _ _ hmap
        have key : ∀ r, r < 3 →
            (concatArrays as).position.get? (3 * i + r) = pos.get? r := by
          intro r hr
          rw [concatArrays_position,
            flatten_uniform_get? (as.map Arrays.position) 3 huni i r
              (by simp [hlenp, hip]) hr, hgd]
        refine ⟨vx, vy, vz, hvx, hvy, hvz, ?_, ?_, ?_⟩
        · have := key 0 (by omega)
          rw [Nat.add_zero] at this
          rw [this, hl]; rfl
        · rw [key 1 (by omega), hl]; rfl
        · rw [key 2 (by omega), hl]; rfl
      · intro oi si hoi hsi i hip
        have hrowI : ∀ b ∈ as, b.intensity.length = 1 := by
          intro b hb
          obtain ⟨n, hn⟩ := List.mem_iff_get?.mp hb
          have hnlt : n < as.length := by
            rw [List.get?_eq_getElem?] at hn
            exact (List.getElem?_eq_some_iff.mp hn).1
          obtain ⟨a', ha', hca'⟩ := hidx n (by simpa [hlenp] using hnlt)
          rw [hn] at ha'; injection ha' with e
          subst e
          obtain ⟨pos, col, nor, intens, lab, _, _, _, h4, _, hmk⟩ :=
            compressedPoint_inv _ _ _ _ _ hca'
          rw [hmk]
          have := cpInt_shape _ _ _ _ _ h4
          rw [hoi] at this
          simpa using this
        have huniI : ∀ l ∈ as.map Arrays.intensity, l.length = 1 := by
          intro l hl
          obtain ⟨b, hb, rfl⟩ := List.mem_map.mp hl
          exact hrowI b hb
        obtain ⟨a, ha, hca⟩ := hidx i (by simpa using hip)
        have hri : (List.range p).get ⟨i, by simpa using hip⟩ = i := by
          simp [List.get_range]
        rw [hri] at hca
        obtain ⟨pos, col, nor, intens, lab, _, _, _, hint, _, hmk⟩ :=
          compressedPoint_inv _ _ _ _ _ hca
        obtain ⟨vi, hvi, hl⟩ := cpInt_addr H dec le i p oi si intens hp hoi hsi hint
        have hmap : (as.map Arrays.intensity).get? i = some intens := by
          rw [List.get?_map, ha, hmk, hl]
          rw [hl] at hmk
          rfl
        have hgd : (as.map Arrays.intensity).getD i [] = intens :=
          list_getD_of_get? _ _ _ _ hmap
        refine ⟨vi, hvi, ?_⟩
        have key := flatten_uniform_get? (as.map Arrays.intensity) 1 huniI i 0
          (by simp [hlenp, hip]) (by omega)
        rw [Nat.mul_comm, Nat.mul_one, Nat.add_zero] at key
        rw [concatArrays_intensity, key, hgd, hl]
        rfl
  case _ =>
    exact Except.noConfusion hA

def c4hdr : PCDHeader :=
  PCDHeader.mk "binary_compressed".data 0
    ["x".data, "y".data, "z".data, "intensity".data]
    (some [some 4, some 4, some 4, some 4])
    (some ["F".data, "F".data, "F".data, "F".data])
    [some 1, some 1, some 1, some 1]
    (some (some 2)) (some (some 1)) (some 2)
    [("intensity".data, some 12), ("z".data, some 8), ("y".data, some 4),
      ("x".data, some 0)]
    (some 16)

/-- A 2-point `binary_compressed` body: u32 prefixes (33 compressed,
32 decompressed bytes), then one 32-byte literal run holding the
column-major float32 blocks x=[1,2], y=[3,4], z=[5,6], intensity=[7,8]. -/
def c4bytes : List Nat :=
  [33, 0, 0, 0, 32, 0, 0, 0, 31,
    0, 0, 128, 63, 0, 0, 0, 64,
    0, 0, 64, 64, 0, 0, 128, 64,
    0, 0, 160, 64, 0, 0, 192, 64,
    0, 0, 224, 64, 0, 0, 0, 65]

def c4arr : Arrays :=
  Arrays.mk [some 1, some 3, some 5, some 2, some 4, some 6] [] []
    [some 7, some 8] []

set_option maxRecDepth 100000 in
theorem C4_witness :
    (parseCompressedBody c4hdr c4bytes true = Except.ok c4arr) ∧
    (∃ dec : List Nat,
      decompressLZF ((c4bytes.drop (c4hdr.headerLen + 8)).take
          ((c4bytes.drop c4hdr.headerLen).getD 0 0
            + 256 * (c4bytes.drop c4hdr.headerLen).getD 1 0
            + 65536 * (c4bytes.drop c4hdr.headerLen).getD 2 0
            + 16777216 * (c4bytes.drop c4hdr.headerLen).getD 3 0))
          ((c4bytes.drop c4hdr.headerLen).getD 4 0
            + 256 * (c4bytes.drop c4hdr.headerLen).getD 5 0
            + 65536 * (c4bytes.drop c4hdr.headerLen).getD 6 0
            + 16777216 * (c4bytes.drop c4hdr.headerLen).getD 7 0) = Except.ok dec ∧
      c4arr.position.length = 3 * 2 ∧
      (∀ i, i < 2 → ∃ vx vy vz,
        readF32 dec (2 * 0 + 4 * i) true = Except.ok vx ∧
        readF32 dec (2 * 4 + 4 * i) true = Except.ok vy ∧
        readF32 dec (2 * 8 + 4 * i) true = Except.ok vz ∧
        c4arr.position.get? (3 * i) = some vx ∧
        c4arr.position.get? (3 * i + 1) = some vy ∧
        c4arr.position.get? (3 * i + 2) = some vz) ∧
      (∀ oi si : Nat, olookup c4hdr.offset "intensity".data = some (some (oi : Int)) →
        sizeAt c4hdr.size (fieldIdx c4hdr "intensity".data) = Except.ok (some (si : Int)) →
        ∀ i, i < 2 → ∃ vi, readF32 dec (2 * oi + si * i) true = Except.ok vi ∧
          c4arr.intensity.get? i = some vi)) :=
  ⟨by decide,
    C4_compressed_layout c4hdr c4bytes true 2 0 4 8 4 4 4 c4arr (by decide) (by decide)
      (by decide) (by decide) (by decide) (by decide) (by decide) (by decide)⟩

/-! ### Output array shapes (claim C8) -/

/-- Number of decoded rows of the `ascii` body: nonempty lines after the
header. -/
def asciiRows (H : PCDHeader) (text : List Char) : Nat :=
  (((text.drop H.headerLen).splitOn '\n').filter
    (fun l => !(l == ([] : List Char)))).length

/-- Number of per-point iterations `parse` runs for a given header: nonempty
body lines for `ascii`, the `points` loop bound for the two binary
encodings, 0 when no branch matches the `DATA` value. -/
def pcdRows (H : PCDHeader) (text : List Char) : Nat :=
  if H.data == "ascii".data then asciiRows H text
  else if H.data == "binary_compressed".data || H.data == "binary".data then
    ptsNat H.points
  else 0

theorem asciiRow_inv (H : PCDHeader) (line : List Char) (b : Arrays)
    (h : asciiRow H line = Except.ok b) :
    ∃ col, arCol H (line.splitOn ' ') = Except.ok col ∧
      b = Arrays.mk (arPos H (line.splitOn ' ')) (arNor H (line.splitOn ' ')) col
        (arInt H (line.splitOn ' ')) (arLab H (line.splitOn ' ')) := by
  unfold asciiRow at h
  simp only [] at h
  rw [except_bind_ok] at h; obtain ⟨col, hc, h⟩ := h
  injection h with h
  exact ⟨col, hc, h.symm⟩

theorem binaryPoint_inv (H : PCDHeader) (view : List Nat) (le : Bool) (i : Nat)
    (a : Arrays) (h : binaryPoint H view le i = Except.ok a) :
    ∃ pos col nor intens lab,
      bpPos H view le i = Except.ok pos ∧ bpCol H view i = Except.ok col ∧
      bpNor H view le i = Except.ok nor ∧ bpInt H view le i = Except.ok intens ∧
      bpLab H view le i = Except.ok lab ∧ a = Arrays.mk pos nor col intens lab := by
  unfold binaryPoint at h
  rw [except_bind_ok] at h; obtain ⟨pos, h1, h⟩ := h
  rw [except_bind_ok] at h; obtain ⟨col, h2, h⟩ := h
  rw [except_bind_ok] at h; obtain ⟨nor, h3, h⟩ := h
  rw [except_bind_ok] at h; obtain ⟨intens, h4, h⟩ := h
  rw [except_bind_ok] at h; obtain ⟨lab, h5, h⟩ := h
  injection h with h
  exact ⟨pos, col, nor, intens, lab, h1, h2, h3, h4, h5, h.symm⟩

theorem mem_of_exMapM {α : Type} (f : α → Except String Arrays) (l : List α)
    (as : List Arrays) (h : exMapM f l = Except.ok as) :
    ∀ b ∈ as, ∃ x, f x = Except.ok b := by
  obtain ⟨hlen, hidx⟩ := exMapM_ok f l as h
  intro b hb
  obtain ⟨n, hn⟩ := List.mem_iff_get?.mp hb
  have hnlt : n < as.length := by
    rw [List.get?_eq_getElem?] at hn
    exact (List.getElem?_eq_some_iff.mp hn).1
  obtain ⟨a', ha', hfa'⟩ := hidx n (by rw [← hlen]; exact hnlt)
  rw [hn] at ha'; injection ha' with e
  subst e
  exact ⟨_, hfa'⟩

theorem parseAsciiBody_shape (H : PCDHeader) (text : List Char) (a : Arrays)
    (h : parseAsciiBody H text = Except.ok a) :
    a.position.length
        = (if (olookup H.offset "x".data).isSome then 3 else 0) * asciiRows H text ∧
      a.normal.length
        = (if (olookup H.offset "normal_x".data).isSome then 3 else 0) * asciiRows H text ∧
      a.color.length
        = (if (olookup H.offset "rgb".data).isSome then 3 else 0) * asciiRows H text ∧
      a.intensity.length
        = (if (olookup H.offset "intensity".data).isSome then 1 else 0) * asciiRows H text ∧
      a.label.length
        = (if (olookup H.offset "label".data).isSome then 1 else 0) * asciiRows H text := by
  unfold parseAsciiBody at h
  simp only [] at h
  rw [except_bind_ok] at h; obtain ⟨as, has, h⟩ := h
  injection h with h
  subst h
  have hlen := (exMapM_ok (asciiRow H) _ as has).1
  have hmem := mem_of_exMapM (asciiRow H) _ as has
  have hrowsEq : asciiRows H text
      = (((text.drop H.headerLen).splitOn '\n').filter
          (fun l => !(l == ([] : List Char)))).length := rfl
  refine ⟨?_, ?_, ?_, ?_, ?_⟩
  · rw [concatArrays_position, flatten_length_uniform _ _ ?_, List.length_map, hlen,
      hrowsEq]
    intro l hl
    obtain ⟨b, hb, rfl⟩ := List.mem_map.mp hl
    obtain ⟨line, hline⟩ := hmem b hb
    obtain ⟨col, _, rfl⟩ := asciiRow_inv _ _ _ hline
    exact arPos_shape H _
  · rw [concatArrays_normal, flatten_length_uniform _ _ ?_, List.length_map, hlen,
      hrowsEq]
    intro l hl
    obtain ⟨b, hb, rfl⟩ := List.mem_map.mp hl
    obtain ⟨line, hline⟩ := hmem b hb
    obtain ⟨col, _, rfl⟩ := asciiRow_inv _ _ _ hline
    exact arNor_shape H _
  · rw [concatArrays_color, flatten_length_uniform _ _ ?_, List.length_map, hlen,
      hrowsEq]
    intro l hl
    obtain ⟨b, hb, rfl⟩ := List.mem_map.mp hl
    obtain ⟨line, hline⟩ := hmem b hb
    obtain ⟨col, hcol, rfl⟩ := asciiRow_inv _ _ _ hline
    exact arCol_shape H _ col hcol
  · rw [concatArrays_intensity, flatten_length_uniform _ _ ?_, List.length_map, hlen,
      hrowsEq]
    intro l hl
    obtain ⟨b, hb, rfl⟩ := List.mem_map.mp hl
    obtain ⟨line, hline⟩ := hmem b hb
    obtain ⟨col, _, rfl⟩ := asciiRow_inv _ _ _ hline
    exact arInt_shape H _
  · rw [concatArrays_label, flatten_length_uniform _ _ ?_, List.length_map, hlen,
      hrowsEq]
    intro l hl
    obtain ⟨b, hb, rfl⟩ := List.mem_map.mp hl
    obtain ⟨line, hline⟩ := hmem b hb
    obtain ⟨col, _, rfl⟩ := asciiRow_inv _ _ _ hline
    exact arLab_shape H _

theorem parseCompressedBody_shape (H : PCDHeader) (bytes : List Nat) (le : Bool)
    (a : Arrays) (h : parseCompressedBody H bytes le = Except.ok a) :
    a.position.length
        = (if (olookup H.offset "x".data).isSome then 3 else 0) * ptsNat H.points ∧
      a.normal.length
        = (if (olookup H.offset "normal_x".data).isSome then 3 else 0) * ptsNat H.points ∧
      a.color.length
        = (if (olookup H.offset "rgb".data).isSome then 3 else 0) * ptsNat H.points ∧
      a.intensity.length
        = (if (olookup H.offset "intensity".data).isSome then 1 else 0) * ptsNat H.points ∧
      a.label.length
        = (if (olookup H.offset "label".data).isSome then 1 else 0) * ptsNat H.points := by
  unfold parseCompressedBody at h
  simp only [] at h
  split at h
  case _ s0 s1 s2 s3 t0 t1 t2 t3 h0 h1 h2 h3 h4 h5 h6 h7 =>
    split at h
    · exact Except.noConfusion h
    · rw [except_bind_ok] at h; obtain ⟨dec, _, h⟩ := h
      rw [except_bind_ok] at h; obtain ⟨as, has, h⟩ := h
      injection h with h
      subst h
      have hlen : as.length = ptsNat H.points := by
        have := (exMapM_ok (compressedPoint H dec le) _ as has).1
        simpa using this
      have hmem := mem_of_exMapM (compressedPoint H dec le) _ as has
      refine ⟨?_, ?_, ?_, ?_, ?_⟩
      · rw [concatArrays_position, flatten_length_uniform _ _ ?_, List.length_map, hlen]
        intro l hl
        obtain ⟨b, hb, rfl⟩ := List.mem_map.mp hl
        obtain ⟨i, hi⟩ := hmem b hb
        obtain ⟨pos, col, nor, intens, lab, g1, g2, g3, g4, g5, rfl⟩ :=
          compressedPoint_inv _ _ _ _ _ hi
        exact cpPos_shape _ _ _ _ _ g1
      · rw [concatArrays_normal, flatten_length_uniform _ _ ?_, List.length_map, hlen]
        intro l hl
        obtain ⟨b, hb, rfl⟩ := List.mem_map.mp hl
        obtain ⟨i, hi⟩ := hmem b hb
        obtain ⟨pos, col, nor, intens, lab, g1, g2, g3, g4, g5, rfl⟩ :=
          compressedPoint_inv _ _ _ _ _ hi
        exact cpNor_shape _ _ _ _ _ g3
      · rw [concatArrays_color, flatten_length_uniform _ _ ?_, List.length_map, hlen]
        intro l hl
        obtain ⟨b, hb, rfl⟩ := List.mem_map.mp hl
        obtain ⟨i, hi⟩ := hmem b hb
        obtain ⟨pos, col, nor, intens, lab, g1, g2, g3, g4, g5, rfl⟩ :=
          compressedPoint_inv _ _ _ _ _ hi
        exact cpCol_shape _ _ _ _ g2
      · rw [concatArrays_intensity, flatten_length_uniform _ _ ?_, List.length_map, hlen]
        intro l hl
        obtain ⟨b, hb, rfl⟩ := List.mem_map.mp hl
        obtain ⟨i, hi⟩ := hmem b hb
        obtain ⟨pos, col, nor, intens, lab, g1, g2, g3, g4, g5, rfl⟩ :=
          compressedPoint_inv _ _ _ _ _ hi
        exact cpInt_shape _ _ _ _ _ g4
      · rw [concatArrays_label, flatten_length_uniform _ _ ?_, List.length_map, hlen]
        intro l hl
        obtain ⟨b, hb, rfl⟩ := List.mem_map.mp hl
        obtain ⟨i, hi⟩ := hmem b hb
        obtain ⟨pos, col, nor, intens, lab, g1, g2, g3, g4, g5, rfl⟩ :=
          compressedPoint_inv _ _ _ _ _ hi
        exact cpLab_shape _ _ _ _ _ g5
  case _ =>
    exact Except.noConfusion h

theorem parseBinaryBody_shape (H : PCDHeader) (bytes : List Nat) (le : Bool)
    (a : Arrays) (h : parseBinaryBody H bytes le = Except.ok a) :
    a.position.length
        = (if (olookup H.offset "x".data).isSome then 3 else 0) * ptsNat H.points ∧
      a.normal.length
        = (if (olookup H.offset "normal_x".data).isSome then 3 else 0) * ptsNat H.points ∧
      a.color.length
        = (if (olookup H.offset "rgb".data).isSome then 3 else 0) * ptsNat H.points ∧
      a.intensity.length
        = (if (olookup H.offset "intensity".data).isSome then 1 else 0) * ptsNat H.points ∧
      a.label.length
        = (if (olookup H.offset "label".data).isSome then 1 else 0) * ptsNat H.points := by
  unfold parseBinaryBody at h
  simp only [] at h
  split at h
  · exact Except.noConfusion h
  · rw [except_bind_ok] at h; obtain ⟨as, has, h⟩ := h
    injection h with h
    subst h
    have hlen : as.length = ptsNat H.points := by
      have := (exMapM_ok (binaryPoint H (bytes.drop H.headerLen) le) _ as has).1
      simpa using this
    have hmem := mem_of_exMapM (binaryPoint H (bytes.drop H.headerLen) le) _ as has
    refine ⟨?_, ?_, ?_, ?_, ?_⟩
    · rw [concatArrays_position, flatten_length_uniform _ _ ?_, List.length_map, hlen]
      intro l hl
      obtain ⟨b, hb, rfl⟩ := List.mem_map.mp hl
      obtain ⟨i, hi⟩ := hmem b hb
      obtain ⟨pos, col, nor, intens, lab, g1, g2, g3, g4, g5, rfl⟩ :=
        binaryPoint_inv _ _ _ _ _ hi
      exact bpPos_shape _ _ _ _ _ g1
    · rw [concatArrays_normal, flatten_length_uniform _ _ ?_, List.length_map, hlen]
      intro l hl
      obtain ⟨b, hb, rfl⟩ := List.mem_map.mp hl
      obtain ⟨i, hi⟩ := hmem b hb
      obtain ⟨pos, col, nor, intens, lab, g1, g2, g3, g4, g5, rfl⟩ :=
        binaryPoint_inv _ _ _ _ _ hi
      exact bpNor_shape _ _ _ _ _ g3
    · rw [concatArrays_color, flatten_length_uniform _ _ ?_, List.length_map, hlen]
      intro l hl
      obtain ⟨b, hb, rfl⟩ := List.mem_map.mp hl
      obtain ⟨i, hi⟩ := hmem b hb
      obtain ⟨pos, col, nor, intens, lab, g1, g2, g3, g4, g5, rfl⟩ :=
        binaryPoint_inv _ _ _ _ _ hi
      exact bpCol_shape _ _ _ _ g2
    · rw [concatArrays_intensity, flatten_length_uniform _ _ ?_, List.length_map, hlen]
      intro l hl
      obtain ⟨b, hb, rfl⟩ := List.mem_map.mp hl
      obtain ⟨i, hi⟩ := hmem b hb
      obtain ⟨pos, col, nor, intens, lab, g1, g2, g3, g4, g5, rfl⟩ :=
        binaryPoint_inv _ _ _ _ _ hi
      exact bpInt_shape _ _ _ _ _ g4
    · rw [concatArrays_label, flatten_length_uniform _ _ ?_, List.length_map, hlen]
      intro l hl
      obtain ⟨b, hb, rfl⟩ := List.mem_map.mp hl
      obtain ⟨i, hi⟩ := hmem b hb
      obtain ⟨pos, col, nor, intens, lab, g1, g2, g3, g4, g5, rfl⟩ :=
        binaryPoint_inv _ _ _ _ _ hi
      exact bpLab_shape _ _ _ _ _ g5

theorem emit_spec {α : Type} (l : List α) (k rows : Nat)
    (hlen : l.length = k * rows) :
    ((emit l).isSome ↔ 0 < k ∧ 0 < rows) ∧
    (∀ m, emit l = some m → m.length = k * rows ∧ m ≠ []) := by
  constructor
  · by_cases hl : l.isEmpty
    · rw [emit, if_pos hl]
      have h0 : k * rows = 0 := by
        rw [← hlen]
        rw [List.isEmpty_iff] at hl
        simp [hl]
      simp only [Option.isSome_none, Bool.false_eq_true, false_iff]
      rintro ⟨hk, hr⟩
      rcases Nat.mul_eq_zero.mp h0 with h | h <;> omega
    · rw [emit, if_neg hl]
      have h0 : k * rows ≠ 0 := by
        rw [← hlen]
        intro hc
        rw [List.isEmpty_iff] at hl
        exact hl (List.length_eq_zero.mp hc)
      simp only [Option.isSome_some, true_iff]
      rcases Nat.eq_zero_or_pos k with hk | hk
      · exact absurd (by rw [hk, Nat.zero_mul]) h0
      rcases Nat.eq_zero_or_pos rows with hr | hr
      · exact absurd (by rw [hr, Nat.mul_zero]) h0
      exact ⟨hk, hr⟩
  · intro m hm
    rw [emit] at hm
    by_cases hl : l.isEmpty
    · rw [if_pos hl] at hm
      exact absurd hm (by simp)
    · rw [if_neg hl] at hm
      injection hm with e
      subst e
      refine ⟨hlen, fun hc => hl ?_⟩
      rw [hc]
      rfl

theorem pos_if3 (b : Bool) : 0 < (if b then 3 else 0) ↔ b = true := by
  cases b <;> simp

theorem pos_if1 (b : Bool) : 0 < (if b then 1 else 0) ↔ b = true := by
  cases b <;> simp


theorem emit_all_spec (H : PCDHeader) (text : List Char) (A : Arrays)
    (e1 : A.position.length
      = (if (olookup H.offset "x".data).isSome then 3 else 0) * pcdRows H text)
    (e2 : A.normal.length
      = (if (olookup H.offset "normal_x".data).isSome then 3 else 0) * pcdRows H text)
    (e3 : A.color.length
      = (if (olookup H.offset "rgb".data).isSome then 3 else 0) * pcdRows H text)
    (e4 : A.intensity.length
      = (if (olookup H.offset "intensity".data).isSome then 1 else 0) * pcdRows H text)
    (e5 : A.label.length
      = (if (olookup H.offset "label".data).isSome then 1 else 0) * pcdRows H text) :
    ((emit A.position).isSome ↔ (olookup H.offset "x".data).isSome
      ∧ 0 < pcdRows H text) ∧
    (∀ l, emit A.position = some l → l.length = 3 * pcdRows H text ∧ l ≠ []) ∧
    ((emit A.normal).isSome ↔ (olookup H.offset "normal_x".data).isSome
      ∧ 0 < pcdRows H text) ∧
    (∀ l, emit A.normal = some l → l.length = 3 * pcdRows H text ∧ l ≠ []) ∧
    ((emit A.color).isSome ↔ (olookup H.offset "rgb".data).isSome
      ∧ 0 < pcdRows H text) ∧
    (∀ l, emit A.color = some l → l.length = 3 * pcdRows H text ∧ l ≠ []) ∧
    ((emit A.intensity).isSome ↔ (olookup H.offset "intensity".data).isSome
      ∧ 0 < pcdRows H text) ∧
    (∀ l, emit A.intensity = some l → l.length = pcdRows H text ∧ l ≠ []) ∧
    ((emit A.label).isSome ↔ (olookup H.offset "label".data).isSome
      ∧ 0 < pcdRows H text) ∧
    (∀ l, emit A.label = some l → l.length = pcdRows H text ∧ l ≠ []) := by
  have px := emit_spec _ _ _ e1
  have pn := emit_spec _ _ _ e2
  have pc := emit_spec _ _ _ e3
  have pint := emit_spec _ _ _ e4
  have pl := emit_spec _ _ _ e5
  refine ⟨?_, ?_, ?_, ?_, ?_, ?_, ?_, ?_, ?_, ?_⟩
  · exact px.1.trans (and_congr_left' (pos_if3 _))
  · intro l hl
    have hg := (pos_if3 _).mp (px.1.mp (by rw [hl]; rfl)).1
    obtain ⟨hlen', hne⟩ := px.2 l hl
    refine ⟨?_, hne⟩
    rw [hlen', hg]
    simp
  · exact pn.1.trans (and_congr_left' (pos_if3 _))
  · intro l hl
    have hg := (pos_if3 _).mp (pn.1.mp (by rw [hl]; rfl)).1
    obtain ⟨hlen', hne⟩ := pn.2 l hl
    refine ⟨?_, hne⟩
    rw [hlen', hg]
    simp
  · exact pc.1.trans (and_congr_left' (pos_if3 _))
  · intro l hl
    have hg := (pos_if3 _).mp (pc.1.mp (by rw [hl]; rfl)).1
    obtain ⟨hlen', hne⟩ := pc.2 l hl
    refine ⟨?_, hne⟩
    rw [hlen', hg]
    simp
  · exact pint.1.trans (and_congr_left' (pos_if1 _))
  · intro l hl
    have hg := (pos_if1 _).mp (pint.1.mp (by rw [hl]; rfl)).1
    obtain ⟨hlen', hne⟩ := pint.2 l hl
    refine ⟨?_, hne⟩
    rw [hlen', hg]
    simp
  · exact pl.1.trans (and_congr_left' (pos_if1 _))
  · intro l hl
    have hg := (pos_if1 _).mp (pl.1.mp (by rw [hl]; rfl)).1
    obtain ⟨hlen', hne⟩ := pl.2 l hl
    refine ⟨?_, hne⟩
    rw [hlen', hg]
    simp

/-- **C8 (amended).** For every successfully decoded input there is a parsed
header `H` such that: each output array is present iff the group's gate
field (`x`, `normal_x`, `rgb`, `intensity`, `label`) is in `H.offset` AND
the branch decoded at least one row (`pcdRows`: nonempty body lines for
`ascii`, the `points` loop bound for the binary encodings); every present
array is nonempty of length exactly `3*rows` (positions, normals, colors)
or `rows` (intensity, label).  The original claim's `pointCount` and its
"x, y and z all declared" gate are both wrong: `ascii` rows are counted
from the body independently of `POINTS`, and only `x` gates positions (see
the counterexample). -/
theorem C8_array_shapes (bytes : List Nat) (le : Bool) (R : PCDResult)
    (h : parse bytes le = Except.ok R) :
    ∃ H, parseHeader (bytesToChars bytes) = Except.ok H ∧
      (R.position.isSome ↔ (olookup H.offset "x".data).isSome
        ∧ 0 < pcdRows H (bytesToChars bytes)) ∧
      (∀ l, R.position = some l
        → l.length = 3 * pcdRows H (bytesToChars bytes) ∧ l ≠ []) ∧
      (R.normal.isSome ↔ (olookup H.offset "normal_x".data).isSome
        ∧ 0 < pcdRows H (bytesToChars bytes)) ∧
      (∀ l, R.normal = some l
        → l.length = 3 * pcdRows H (bytesToChars bytes) ∧ l ≠ []) ∧
      (R.color.isSome ↔ (olookup H.offset "rgb".data).isSome
        ∧ 0 < pcdRows H (bytesToChars bytes)) ∧
      (∀ l, R.color = some l
        → l.length = 3 * pcdRows H (bytesToChars bytes) ∧ l ≠ []) ∧
      (R.intensity.isSome ↔ (olookup H.offset "intensity".data).isSome
        ∧ 0 < pcdRows H (bytesToChars bytes)) ∧
      (∀ l, R.intensity = some l
        → l.length = pcdRows H (bytesToChars bytes) ∧ l ≠ []) ∧
      (R.label.isSome ↔ (olookup H.offset "label".data).isSome
        ∧ 0 < pcdRows H (bytesToChars bytes)) ∧
      (∀ l, R.label = some l
        → l.length = pcdRows H (bytesToChars bytes) ∧ l ≠ []) := by
  unfold parse at h
  simp only [] at h
  rw [except_bind_ok] at h; obtain ⟨H, hH, h⟩ := h
  refine ⟨H, hH, ?_⟩
  by_cases hd1 : H.data == "ascii".data
  · have e1 : H.data = "ascii".data := by simpa using hd1
    have f2 : (H.data == "binary_compressed".data) = false := by rw [e1]; decide
    have f3 : (H.data == "binary".data) = false := by rw [e1]; decide
    rw [hd1, f2, f3] at h
    simp only [Bool.false_eq_true, if_true, if_false] at h
    rw [except_bind_ok] at h; obtain ⟨a1, h1, h⟩ := h
    injection h with h
    subst h
    have hrows : pcdRows H (bytesToChars bytes) = asciiRows H (bytesToChars bytes) := by
      rw [pcdRows, hd1]
      simp
    obtain ⟨s1, s2, s3, s4, s5⟩ := parseAsciiBody_shape _ _ _ h1
    exact emit_all_spec H (bytesToChars bytes) _
      (by simpa [Arrays.appendA, emptyArrays, hrows] using s1)
      (by simpa [Arrays.appendA, emptyArrays, hrows] using s2)
      (by simpa [Arrays.appendA, emptyArrays, hrows] using s3)
      (by simpa [Arrays.appendA, emptyArrays, hrows] using s4)
      (by simpa [Arrays.appendA, emptyArrays, hrows] using s5)
  · have f1 : (H.data == "ascii".data) = false := by simpa using hd1
    by_cases hd2 : H.data == "binary_compressed".data
    · have e2 : H.data = "binary_compressed".data := by simpa using hd2
      have f3 : (H.data == "binary".data) = false := by rw [e2]; decide
      rw [f1, hd2, f3] at h
      simp only [Bool.false_eq_true, if_true, if_false] at h
      rw [except_bind_ok] at h; obtain ⟨a1, h1, h⟩ := h
      injection h1 with h1
      subst h1
      rw [except_bind_ok] at h; obtain ⟨a2, h2, h⟩ := h
      injection h with h
      subst h
      have hrows : pcdRows H (bytesToChars bytes) = ptsNat H.points := by
        rw [pcdRows, f1, hd2]
        simp
      obtain ⟨s1, s2, s3, s4, s5⟩ := parseCompressedBody_shape _ _ _ _ h2
      exact emit_all_spec H (bytesToChars bytes)
        (Arrays.appendA emptyArrays (Arrays.appendA a2 emptyArrays))
        (by simpa [Arrays.appendA, emptyArrays, hrows] using s1)
        (by simpa [Arrays.appendA, emptyArrays, hrows] using s2)
        (by simpa [Arrays.appendA, emptyArrays, hrows] using s3)
        (by simpa [Arrays.appendA, emptyArrays, hrows] using s4)
        (by simpa [Arrays.appendA, emptyArrays, hrows] using s5)
    · have f2 : (H.data == "binary_compressed".data) = false := by simpa using hd2
      by_cases hd3 : H.data == "binary".data
      · rw [f1, f2, hd3] at h
        simp only [Bool.false_eq_true, if_true, if_false] at h
        rw [except_bind_ok] at h; obtain ⟨a1, h1, h⟩ := h
        injection h1 with h1
        subst h1
        rw [except_bind_ok] at h; obtain ⟨a2, h2, h⟩ := h
        injection h2 with h2
        subst h2
        rw [except_bind_ok] at h; obtain ⟨a3, h3, h⟩ := h
        injection h with h
        subst h
        have hrows : pcdRows H (bytesToChars bytes) = ptsNat H.points := by
          rw [pcdRows, f1, f2, hd3]
          simp
        obtain ⟨s1, s2, s3, s4, s5⟩ := parseBinaryBody_shape _ _ _ _ h3
        exact emit_all_spec H (bytesToChars bytes)
          (Arrays.appendA emptyArrays (Arrays.appendA emptyArrays a3))
          (by simpa [Arrays.appendA, emptyArrays, hrows] using s1)
          (by simpa [Arrays.appendA, emptyArrays, hrows] using s2)
          (by simpa [Arrays.appendA, emptyArrays, hrows] using s3)
          (by simpa [Arrays.appendA, emptyArrays, hrows] using s4)
          (by simpa [Arrays.appendA, emptyArrays, hrows] using s5)
      · have f3 : (H.data == "binary".data) = false := by simpa using hd3
        rw [f1, f2, f3] at h
        simp only [Bool.false_eq_true, if_false] at h
        injection h with h
        subst h
        have hrows : pcdRows H (bytesToChars bytes) = 0 := by
          rw [pcdRows, f1, f2, f3]
          simp
        exact emit_all_spec H (bytesToChars bytes)
          (Arrays.appendA emptyArrays (Arrays.appendA emptyArrays emptyArrays))
          (by simp [Arrays.appendA, emptyArrays, hrows])
          (by simp [Arrays.appendA, emptyArrays, hrows])
          (by simp [Arrays.appendA, emptyArrays, hrows])
          (by simp [Arrays.appendA, emptyArrays, hrows])
          (by simp [Arrays.appendA, emptyArrays, hrows])

/-- C8 counterexample to the original claim: with only `x` declared (no
`y`, `z`) and `POINTS 1`, a positions array is still produced (the source
gates the triple on `offset.x` alone; the missing `y`/`z` columns parse to
`NaN`), and the `ascii` decoder emits one triple per nonempty body line —
two here — so its length is 6, not `3*pointCount = 3`. -/
theorem C8_counterexample :
    parse (strBytes "FIELDS x\nSIZE 4\nTYPE F\nPOINTS 1\nDATA ascii\n1\n2\n") true
      = Except.ok (PCDResult.mk
          (some [some 1, none, none, some 2, none, none]) none none none none) := by
  decide

def c8bytes : List Nat :=
  strBytes "FIELDS x intensity\nSIZE 4 4\nTYPE F F\nDATA ascii\n1 7\n2 8\n"

def c8res : PCDResult :=
  PCDResult.mk (some [some 1, none, none, some 2, none, none]) none none
    (some [some 7, some 8]) none

set_option maxRecDepth 100000 in
theorem C8_witness :
    (parse c8bytes true = Except.ok c8res) ∧
    (∃ H, parseHeader (bytesToChars c8bytes) = Except.ok H ∧
      (c8res.position.isSome ↔ (olookup H.offset "x".data).isSome
        ∧ 0 < pcdRows H (bytesToChars c8bytes)) ∧
      (∀ l, c8res.position = some l
        → l.length = 3 * pcdRows H (bytesToChars c8bytes) ∧ l ≠ []) ∧
      (c8res.normal.isSome ↔ (olookup H.offset "normal_x".data).isSome
        ∧ 0 < pcdRows H (bytesToChars c8bytes)) ∧
      (∀ l, c8res.normal = some l
        → l.length = 3 * pcdRows H (bytesToChars c8bytes) ∧ l ≠ []) ∧
      (c8res.color.isSome ↔ (olookup H.offset "rgb".data).isSome
        ∧ 0 < pcdRows H (bytesToChars c8bytes)) ∧
      (∀ l, c8res.color = some l
        → l.length = 3 * pcdRows H (bytesToChars c8bytes) ∧ l ≠ []) ∧
      (c8res.intensity.isSome ↔ (olookup H.offset "intensity".data).isSome
        ∧ 0 < pcdRows H (bytesToChars c8bytes)) ∧
      (∀ l, c8res.intensity = some l
        → l.length = pcdRows H (bytesToChars c8bytes) ∧ l ≠ []) ∧
      (c8res.label.isSome ↔ (olookup H.offset "label".data).isSome
        ∧ 0 < pcdRows H (bytesToChars c8bytes)) ∧
      (∀ l, c8res.label = some l
        → l.length = pcdRows H (bytesToChars c8bytes) ∧ l ≠ [])) :=
  ⟨by decide, C8_array_shapes c8bytes true c8res (by decide)⟩
